import Mathlib

/-!
Verification of the Flic 2 BLE protocol implementation (`flic_ble`).

All definitions are shallow embeddings of the Python sources under
`custom_components/flic_ble/flic2/`:

* `crypto/chaskey_lts.py` — the modified Chaskey-LTS MAC,
* `crypto/keys.py`        — the key-derivation schedule (SHA-256 / HMAC-SHA-256),
* `protocol/packets.py`   — packet encoding / decoding and button events,
* `protocol/state_machine.py` — the pairing state machine,
* `connection/client.py`  — the session engine's signed requests.

Bytes are modelled as `List Nat` (each element intended `< 256`); 32-bit
machine words are `Nat` with explicit masking by `0xFFFFFFFF`, exactly as the
Python source masks.
-/

namespace FlicBLE

/-! ## 32-bit word primitives (`crypto/chaskey_lts.py`) -/

/-- `_rotr32` from `chaskey_lts.py`: `x &= 0xFFFFFFFF; ((x >> n) | (x << (32 - n))) & 0xFFFFFFFF`. -/
def rotr32 (x n : Nat) : Nat :=
  (((x &&& 0xFFFFFFFF) >>> n) ||| ((x &&& 0xFFFFFFFF) <<< (32 - n))) &&& 0xFFFFFFFF

/-- `_rotl32` from `chaskey_lts.py`. -/
def rotl32 (x n : Nat) : Nat :=
  (((x &&& 0xFFFFFFFF) <<< n) ||| ((x &&& 0xFFFFFFFF) >>> (32 - n))) &&& 0xFFFFFFFF

/-- The 128-bit Chaskey state: four 32-bit words (`v[0] .. v[3]`). -/
structure St where
  v0 : Nat
  v1 : Nat
  v2 : Nat
  v3 : Nat
deriving DecidableEq

/-- All four state words fit in 32 bits. -/
def St.Bounded (s : St) : Prop :=
  s.v0 < 2 ^ 32 ∧ s.v1 < 2 ^ 32 ∧ s.v2 < 2 ^ 32 ∧ s.v3 < 2 ^ 32

instance (s : St) : Decidable s.Bounded := by unfold St.Bounded; infer_instance

/-- `_times_two` from `chaskey_lts.py` (multiply by 2 in GF(2^128), `v[3]` most significant). -/
def timesTwo (k : St) : St :=
  let c := (k.v3 >>> 31) * 0x87
  { v0 := ((k.v0 <<< 1) ^^^ c) &&& 0xFFFFFFFF
    v1 := ((k.v1 <<< 1) ||| (k.v0 >>> 31)) &&& 0xFFFFFFFF
    v2 := ((k.v2 <<< 1) ||| (k.v1 >>> 31)) &&& 0xFFFFFFFF
    v3 := ((k.v3 <<< 1) ||| (k.v2 >>> 31)) &&& 0xFFFFFFFF }

/-!
The 16-round Flic permutation (`ChaskeyLTS._permute`).  One round of the
source's loop body is eight sequential assignments; we embed each assignment
as a state-to-state step and the loop body as their composition.
-/

/-- `r4 = (r4 + r5) & M` -/
def step1 (s : St) : St := { s with v0 := (s.v0 + s.v1) &&& 0xFFFFFFFF }
/-- `r5 = r4 ^ ROR32(r5, 27)` -/
def step2 (s : St) : St := { s with v1 := s.v0 ^^^ rotr32 s.v1 27 }
/-- `r6 = (r7 + ROR32(r6, 16)) & M` -/
def step3 (s : St) : St := { s with v2 := (s.v3 + rotr32 s.v2 16) &&& 0xFFFFFFFF }
/-- `r7 = r6 ^ ROR32(r7, 24)` -/
def step4 (s : St) : St := { s with v3 := s.v2 ^^^ rotr32 s.v3 24 }
/-- `r6 = (r6 + r5) & M` -/
def step5 (s : St) : St := { s with v2 := (s.v2 + s.v1) &&& 0xFFFFFFFF }
/-- `r4 = (r7 + ROR32(r4, 16)) & M` -/
def step6 (s : St) : St := { s with v0 := (s.v3 + rotr32 s.v0 16) &&& 0xFFFFFFFF }
/-- `r5 = r6 ^ ROR32(r5, 25)` -/
def step7 (s : St) : St := { s with v1 := s.v2 ^^^ rotr32 s.v1 25 }
/-- `r7 = r4 ^ ROR32(r7, 19)` -/
def step8 (s : St) : St := { s with v3 := s.v0 ^^^ rotr32 s.v3 19 }

/-- One iteration of the round loop in `ChaskeyLTS._permute`. -/
def chaskeyRound (s : St) : St :=
  step8 (step7 (step6 (step5 (step4 (step3 (step2 (step1 s)))))))

/-- `ChaskeyLTS._permute`: pre-rotate `r6` by 16, sixteen rounds, post-rotate `r6` by 16. -/
def permute (s : St) : St :=
  let t := chaskeyRound^[16] { s with v2 := rotr32 s.v2 16 }
  { t with v2 := rotr32 t.v2 16 }

/-! Inverses of the round steps (not in the source; used to invert `encrypt_block`). -/

/-- `(a + 2^32 - b) % 2^32`: subtraction modulo `2^32` (for `b ≤ 2^32`). -/
def sub32 (a b : Nat) : Nat := (a + 2 ^ 32 - b) % 2 ^ 32

def inv1 (s : St) : St := { s with v0 := sub32 s.v0 s.v1 }
def inv2 (s : St) : St := { s with v1 := rotr32 (s.v1 ^^^ s.v0) 5 }
def inv3 (s : St) : St := { s with v2 := rotr32 (sub32 s.v2 s.v3) 16 }
def inv4 (s : St) : St := { s with v3 := rotr32 (s.v3 ^^^ s.v2) 8 }
def inv5 (s : St) : St := { s with v2 := sub32 s.v2 s.v1 }
def inv6 (s : St) : St := { s with v0 := rotr32 (sub32 s.v0 s.v3) 16 }
def inv7 (s : St) : St := { s with v1 := rotr32 (s.v1 ^^^ s.v2) 7 }
def inv8 (s : St) : St := { s with v3 := rotr32 (s.v3 ^^^ s.v0) 13 }

/-- Inverse of `chaskeyRound`. -/
def invRound (s : St) : St :=
  inv1 (inv2 (inv3 (inv4 (inv5 (inv6 (inv7 (inv8 s)))))))

/-- Inverse of `permute`. -/
def invPermute (s : St) : St :=
  let t := invRound^[16] { s with v2 := rotr32 s.v2 16 }
  { t with v2 := rotr32 t.v2 16 }

/-! ## Bytes ↔ words (`struct.unpack("<4I", ...)` / `struct.pack`) -/

/-- Little-endian 32-bit word at byte offset `i` (`struct.unpack("<I", ...)`). -/
def le32 (bs : List Nat) (i : Nat) : Nat :=
  bs.getD i 0 + bs.getD (i + 1) 0 * 256 + bs.getD (i + 2) 0 * 65536 +
    bs.getD (i + 3) 0 * 16777216

/-- `struct.unpack("<4I", block)` for a 16-byte block. -/
def unpack4 (bs : List Nat) : St :=
  { v0 := le32 bs 0, v1 := le32 bs 4, v2 := le32 bs 8, v3 := le32 bs 12 }

/-- `struct.pack("<I", w)`: a 32-bit word as 4 little-endian bytes. -/
def pack32 (w : Nat) : List Nat :=
  [w &&& 0xFF, (w >>> 8) &&& 0xFF, (w >>> 16) &&& 0xFF, (w >>> 24) &&& 0xFF]

/-- `struct.pack("<4I", v0, v1, v2, v3)`. -/
def pack16 (s : St) : List Nat :=
  pack32 s.v0 ++ pack32 s.v1 ++ pack32 s.v2 ++ pack32 s.v3

/-! ## The `ChaskeyLTS` object -/

/-- The key material computed by `ChaskeyLTS.__init__`: `k`, `k1 = 2·k`, `k2 = 2·k1`. -/
structure Chaskey where
  k : St
  k1 : St
  k2 : St
deriving DecidableEq

/-- `ChaskeyLTS.__init__`: requires a 16-byte key (raises `ValueError` otherwise),
parses it as 4 little-endian words and derives the two subkeys. -/
def chaskeyOfKey (key : List Nat) : Option Chaskey :=
  if key.length = 16 then
    let k := unpack4 key
    some { k := k, k1 := timesTwo k, k2 := timesTwo (timesTwo k) }
  else none

/-- XOR a 16-byte block into the state and permute (loop body of `ChaskeyLTS.mac`). -/
def absorb (s : St) (block : List Nat) : St :=
  let b := unpack4 block
  permute { v0 := s.v0 ^^^ b.v0, v1 := s.v1 ^^^ b.v1, v2 := s.v2 ^^^ b.v2, v3 := s.v3 ^^^ b.v3 }

/-- Fuel-indexed form of the full-block loop of `ChaskeyLTS.mac`
(structural recursion so that the kernel can evaluate it; `macBlocks`
instantiates the fuel so that it never runs out). -/
def macBlocksF : Nat → St → List Nat → St × List Nat
  | 0, s, msg => (s, msg)
  | fuel + 1, s, msg =>
    if 16 ≤ msg.length then macBlocksF fuel (absorb s (msg.take 16)) (msg.drop 16)
    else (s, msg)

/-- The full-block loop of `ChaskeyLTS.mac`: `while i + block_size <= len(message)`.
Returns the state after all full blocks together with the remaining bytes. -/
def macBlocks (s : St) (msg : List Nat) : St × List Nat :=
  macBlocksF msg.length s msg

/-- Fuel-indexed form of the full-block loop of
`ChaskeyLTS.mac_with_dir_and_counter`. -/
def macWDCBlocksF : Nat → St → List Nat → St × List Nat
  | 0, s, msg => (s, msg)
  | fuel + 1, s, msg =>
    if 16 < msg.length then macWDCBlocksF fuel (absorb s (msg.take 16)) (msg.drop 16)
    else (s, msg)

/-- The full-block loop of `ChaskeyLTS.mac_with_dir_and_counter`:
`while i + block_size < len(message)` (note the strict `<` in this variant). -/
def macWDCBlocks (s : St) (msg : List Nat) : St × List Nat :=
  macWDCBlocksF msg.length s msg

/-- The last-block handling shared by `mac` and `mac_with_dir_and_counter`:
a short block is padded with `0x01` then zeros and uses `k2`; an exact
16-byte block uses `k1`. Returns `(padded_block, subkey)`. -/
def lastBlock (c : Chaskey) (remaining : List Nat) : List Nat × St :=
  if remaining.length < 16 then
    (remaining ++ [0x01] ++ List.replicate (15 - remaining.length) 0, c.k2)
  else (remaining, c.k1)

/-- `ChaskeyLTS.mac`: standard Chaskey-LTS MAC, 16 bytes of output. -/
def mac (c : Chaskey) (msg : List Nat) : List Nat :=
  let p := macBlocks c.k msg
  let lb := lastBlock c p.2
  let b := unpack4 lb.1
  let sk := lb.2
  let v := permute
    { v0 := p.1.v0 ^^^ b.v0 ^^^ sk.v0, v1 := p.1.v1 ^^^ b.v1 ^^^ sk.v1
      v2 := p.1.v2 ^^^ b.v2 ^^^ sk.v2, v3 := p.1.v3 ^^^ b.v3 ^^^ sk.v3 }
  pack16 { v0 := v.v0 ^^^ c.k.v0, v1 := v.v1 ^^^ c.k.v1
           v2 := v.v2 ^^^ c.k.v2, v3 := v.v3 ^^^ c.k.v3 }

/-- `ChaskeyLTS.mac5`: the MAC truncated to 5 bytes. -/
def mac5 (c : Chaskey) (msg : List Nat) : List Nat := (mac c msg).take 5

/-- `ChaskeyLTS.mac_with_dir_and_counter`: the Flic packet-signature MAC.
State starts from the key with the 64-bit counter XORed into `v[0]`/`v[1]`
and the direction into `v[2]`, followed by an initial permutation; blocks are
absorbed under the strict loop guard; the last block is combined with the
subkey, permuted, and the subkey is XORed into `v[0]`/`v[1]`; the output is
`v[0]` (4 bytes LE) followed by the low byte of `v[1]`. -/
def macWithDirAndCounter (c : Chaskey) (msg : List Nat) (direction counter : Nat) : List Nat :=
  let s0 : St :=
    { v0 := c.k.v0 ^^^ (counter &&& 0xFFFFFFFF)
      v1 := c.k.v1 ^^^ ((counter >>> 32) &&& 0xFFFFFFFF)
      v2 := c.k.v2 ^^^ direction
      v3 := c.k.v3 }
  let p := macWDCBlocks (permute s0) msg
  let lb := lastBlock c p.2
  let b := unpack4 lb.1
  let sk := lb.2
  let v := permute
    { v0 := p.1.v0 ^^^ b.v0 ^^^ sk.v0, v1 := p.1.v1 ^^^ b.v1 ^^^ sk.v1
      v2 := p.1.v2 ^^^ b.v2 ^^^ sk.v2, v3 := p.1.v3 ^^^ b.v3 ^^^ sk.v3 }
  pack32 (v.v0 ^^^ sk.v0) ++ [(v.v1 ^^^ sk.v1) &&& 0xFF]

/-- `ChaskeyLTS.encrypt_block`: `v = k ^ k1 ^ data; permute; v ^= k1`.
Requires a 16-byte block (raises `ValueError` otherwise). -/
def encryptBlock (c : Chaskey) (plaintext : List Nat) : Option (List Nat) :=
  if plaintext.length = 16 then
    let b := unpack4 plaintext
    let v := permute
      { v0 := b.v0 ^^^ c.k.v0 ^^^ c.k1.v0, v1 := b.v1 ^^^ c.k.v1 ^^^ c.k1.v1
        v2 := b.v2 ^^^ c.k.v2 ^^^ c.k1.v2, v3 := b.v3 ^^^ c.k.v3 ^^^ c.k1.v3 }
    some (pack16 { v0 := v.v0 ^^^ c.k1.v0, v1 := v.v1 ^^^ c.k1.v1
                   v2 := v.v2 ^^^ c.k1.v2, v3 := v.v3 ^^^ c.k1.v3 })
  else none

/-- Inverse of `encryptBlock` (not in the source; constructed to witness bijectivity). -/
def decryptBlock (c : Chaskey) (ciphertext : List Nat) : Option (List Nat) :=
  if ciphertext.length = 16 then
    let b := unpack4 ciphertext
    let v := invPermute
      { v0 := b.v0 ^^^ c.k1.v0, v1 := b.v1 ^^^ c.k1.v1
        v2 := b.v2 ^^^ c.k1.v2, v3 := b.v3 ^^^ c.k1.v3 }
    some (pack16 { v0 := v.v0 ^^^ c.k1.v0 ^^^ c.k.v0, v1 := v.v1 ^^^ c.k1.v1 ^^^ c.k.v1
                   v2 := v.v2 ^^^ c.k1.v2 ^^^ c.k.v2, v3 := v.v3 ^^^ c.k1.v3 ^^^ c.k.v3 })
  else none

/-- A well-formed 16-byte block. -/
def ValidBlock (l : List Nat) : Prop := l.length = 16 ∧ ∀ b ∈ l, b < 256

instance (l : List Nat) : Decidable (ValidBlock l) := by unfold ValidBlock; infer_instance

/-! ## Packets (`protocol/packets.py`) -/

/-- Header-byte constants from `flic2/const.py`. -/
def CONN_ID_MASK : Nat := 0x1F
def NEWLY_ASSIGNED_BIT : Nat := 0x20
def MULTI_BIT : Nat := 0x40
def FRAGMENT_BIT : Nat := 0x80
def SIGNATURE_LENGTH : Nat := 5

/-- A decoded packet (`packets.Packet`). -/
structure Packet where
  connId : Nat
  newlyAssigned : Bool
  isMulti : Bool
  isFragment : Bool
  opcode : Nat
  payload : List Nat
  signature : Option (List Nat) := none
deriving DecidableEq

/-- `PacketEncoder.encode`: header byte from `conn_id` (bits 0–4) and the
`newly_assigned` flag (bit 5), then opcode and payload; a 5-byte `mac5`
signature is appended only when `sign` is requested and a session key
(`chas`) is installed. -/
def encode (chas : Option Chaskey) (opcode : Nat) (payload : List Nat)
    (connId : Nat) (newlyAssigned : Bool) (sign : Bool) : List Nat :=
  let header := (connId &&& CONN_ID_MASK) ||| (if newlyAssigned then NEWLY_ASSIGNED_BIT else 0)
  let packet := header :: opcode :: payload
  match chas with
  | some c => if sign then packet ++ mac5 c packet else packet
  | none => packet

/-- `PacketEncoder.encode_ping`: `encode(PING_REQUEST, b"", conn_id=conn_id, sign=True)`
with `PING_REQUEST = 0x0E`. -/
def encodePing (chas : Option Chaskey) (connId : Nat) : List Nat :=
  encode chas 0x0E [] connId false true

/-- Errors raised by `PacketDecoder.decode`:
`ValueError` for packets shorter than 2 bytes, `InvalidSignatureError`
for a signature mismatch. -/
inductive DecodeError where
  | tooShort
  | invalidSignature
deriving DecidableEq

/-- `PacketDecoder.decode`: splits header and opcode; verifies and strips the
trailing 5-byte signature only when verification is requested, a session key
is installed and the data is longer than `SIGNATURE_LENGTH + 2` bytes. -/
def decode (chas : Option Chaskey) (data : List Nat) (verifySignature : Bool) :
    Except DecodeError Packet :=
  if data.length < 2 then .error .tooShort
  else
    let header := data.getD 0 0
    let opcode := data.getD 1 0
    let connId := header &&& CONN_ID_MASK
    let newlyAssigned := header &&& NEWLY_ASSIGNED_BIT != 0
    let isMulti := header &&& MULTI_BIT != 0
    let isFragment := header &&& FRAGMENT_BIT != 0
    match chas with
    | some c =>
      if verifySignature ∧ SIGNATURE_LENGTH + 2 < data.length then
        let signature := data.drop (data.length - SIGNATURE_LENGTH)
        let body := data.take (data.length - SIGNATURE_LENGTH)
        if signature = mac5 c body then
          .ok { connId := connId, newlyAssigned := newlyAssigned, isMulti := isMulti
                isFragment := isFragment, opcode := opcode
                payload := (data.take (data.length - SIGNATURE_LENGTH)).drop 2
                signature := some signature }
        else .error .invalidSignature
      else
        .ok { connId := connId, newlyAssigned := newlyAssigned, isMulti := isMulti
              isFragment := isFragment, opcode := opcode, payload := data.drop 2 }
    | none =>
      .ok { connId := connId, newlyAssigned := newlyAssigned, isMulti := isMulti
            isFragment := isFragment, opcode := opcode, payload := data.drop 2 }

/-! ## Button events (`PacketDecoder.decode_button_event`, `models.py`) -/

/-- `models.ButtonEventType`. -/
inductive ButtonEventType where
  | up
  | down
  | click
  | singleClick
  | doubleClick
  | hold
deriving DecidableEq

/-- `models.ButtonEvent`. The source also carries `age_seconds`, which
`decode_button_event` always sets to the constant `0.0`; that floating-point
field is omitted here. -/
structure ButtonEvent where
  eventType : ButtonEventType
  wasQueued : Bool
  pressCounter : Nat
deriving DecidableEq

/-- The event-type decoding of `decode_button_event` (source if/elif chain and
`event_map` dictionary with default `UP`). -/
def eventTypeOfInfo (info : Nat) : ButtonEventType :=
  let enc := info &&& 0x0F
  if enc >>> 3 ≠ 0 then
    if enc &&& 0x04 ≠ 0 then .hold
    else if enc &&& 0x02 ≠ 0 then
      (if enc &&& 0x01 ≠ 0 then .doubleClick else .singleClick)
    else .up
  else
    if enc = 0 then .up
    else if enc = 1 then .down
    else if enc = 2 then .click
    else if enc = 3 then .singleClick
    else if enc = 4 then .doubleClick
    else if enc = 5 then .hold
    else .up

/-- One decoded 7-byte record (`timestamp(6)` is read but only feeds the
constant `age_seconds`; the event comes from the final `event_info` byte). -/
def mkButtonEvent (pressCounter info : Nat) : ButtonEvent :=
  { eventType := eventTypeOfInfo info
    wasQueued := (info >>> 4) &&& 0x01 != 0
    pressCounter := pressCounter }

/-- The record loop of `decode_button_event`:
`while offset + 7 <= len(payload)` over the bytes after the 4-byte counter. -/
def buttonEventLoop (pressCounter : Nat) (rest : List Nat) : List ButtonEvent :=
  if 7 ≤ rest.length then
    mkButtonEvent pressCounter (rest.getD 6 0) :: buttonEventLoop pressCounter (rest.drop 7)
  else []
termination_by rest.length
decreasing_by simp; omega

/-- `PacketDecoder.decode_button_event`: empty for payloads shorter than
4 bytes; otherwise the 4-byte little-endian `press_counter` followed by one
event per complete 7-byte record. -/
def decodeButtonEvent (payload : List Nat) : List ButtonEvent :=
  if payload.length < 4 then []
  else buttonEventLoop (le32 payload 0) (payload.drop 4)

/-! ## Pairing state machine (`protocol/state_machine.py`) -/

/-- Relevant opcodes from `protocol/opcodes.py`. -/
def FULL_VERIFY_RESPONSE_1 : Nat := 0x00
def FULL_VERIFY_FAIL_RESPONSE_1 : Nat := 0x01
def QUICK_VERIFY_REQUEST : Nat := 0x05
def NO_PAIRING_EXISTS : Nat := 0x06
def QUICK_VERIFY_RESPONSE : Nat := 0x08
def QUICK_VERIFY_FAIL : Nat := 0x09
def PING_REQUEST : Nat := 0x0E
def INIT_BUTTON_EVENTS : Nat := 0x17

/-- `opcodes.QuickVerifyFailReason.INVALID_PAIRING_ID`. -/
def QV_INVALID_PAIRING_ID : Nat := 1

/-- `state_machine.PairingState` (the states reachable in the embedded flows). -/
inductive PairingState where
  | idle
  | fullVerifyRequest1Sent
  | fullVerifyRequest2Sent
  | fullVerifyComplete
  | quickVerifyRequestSent
  | quickVerifyComplete
  | failed
deriving DecidableEq

/-- Control-flow outcome of `PairingStateMachine._handle_full_verify_response_1`
up to the point where Ed25519 verification starts.  `continueToSignature`
carries the five fields returned by `decode_full_verify_response_1`; the
remaining processing (Ed25519, ECDH, key derivation) consumes external
cryptography and is outside this embedding. -/
inductive FVR1Step where
  | failedStep1 (reason : Nat)
  | ignoredUnexpected
  | failedDecode
  | notInPairingMode
  | continueToSignature (signature address : List Nat) (addressType : Nat)
      (ecdhPubkey buttonRandom : List Nat)
deriving DecidableEq

/-- `PacketDecoder.decode_full_verify_response_1`: requires at least 115 bytes
(`tmp_id(4) + sig(64) + addr(6) + type(1) + pubkey(32) + random(8)`), then
slices the fields after the 4-byte `tmp_id` echo. -/
def decodeFullVerifyResponse1 (payload : List Nat) :
    Except String (List Nat × List Nat × Nat × List Nat × List Nat) :=
  if payload.length < 115 then .error "FullVerifyResponse1 too short"
  else
    .ok ((payload.drop 4).take 64,
         (payload.drop 68).take 6,
         payload.getD 74 0,
         (payload.drop 75).take 32,
         (payload.drop 107).take 8)

/-- `PairingStateMachine._handle_full_verify_response_1` (lines 182–244 of
`state_machine.py`): fail response handling, decode, and the public-mode
flags check `if len(packet.payload) > 115: flags = payload[115]; require
(flags >> 1) & 1`. -/
def handleFullVerifyResponse1 (pkt : Packet) : FVR1Step :=
  if pkt.opcode = FULL_VERIFY_FAIL_RESPONSE_1 then
    .failedStep1 (pkt.payload.headD 0)
  else if pkt.opcode ≠ FULL_VERIFY_RESPONSE_1 then .ignoredUnexpected
  else
    match decodeFullVerifyResponse1 pkt.payload with
    | .error _ => .failedDecode
    | .ok (signature, address, addressType, ecdhPubkey, buttonRandom) =>
      if 115 < pkt.payload.length ∧ (pkt.payload.getD 115 0 >>> 1) &&& 0x01 = 0 then
        .notInPairingMode
      else
        .continueToSignature signature address addressType ecdhPubkey buttonRandom

/-- `keys.derive_quick_verify_session_key`:
`Chaskey-LTS-Encrypt(pairing_key, client_random[:7] ‖ 0x00 ‖ button_random[:8])`,
with the source's `ValueError` length checks and the 16-byte key check from
`ChaskeyLTS.__init__`. -/
def deriveQuickVerifySessionKey (pairingKey clientRandom buttonRandom : List Nat) :
    Except String (List Nat) :=
  if clientRandom.length < 7 then .error "client_random must be at least 7 bytes"
  else if buttonRandom.length < 8 then .error "button_random must be at least 8 bytes"
  else
    match chaskeyOfKey pairingKey with
    | none => .error "Key must be 16 bytes"
    | some c =>
      match encryptBlock c (clientRandom.take 7 ++ [0x00] ++ buttonRandom.take 8) with
      | none => .error "Block must be 16 bytes"
      | some ct => .ok ct

/-- The slice of `PairingStateMachine` / `PairingContext` state touched by
`_handle_quick_verify_response`, together with the keys installed into the
shared `PacketEncoder` / `PacketDecoder`. -/
structure QVState where
  state : PairingState
  errorReason : Option Nat
  sessionKey : Option (List Nat)
  encoderKey : Option (List Nat)
  decoderKey : Option (List Nat)
  connId : Nat
  buttonRandom : Option (List Nat)
deriving DecidableEq

/-- `PacketDecoder.decode_quick_verify_response`: the first 8 bytes
(`ValueError` when shorter). -/
def decodeQuickVerifyResponse (payload : List Nat) : Except String (List Nat) :=
  if payload.length < 8 then .error "QuickVerifyResponse too short"
  else .ok (payload.take 8)

/-- `PairingStateMachine._handle_quick_verify_response` (lines 359–411):
`NO_PAIRING_EXISTS` and `QUICK_VERIFY_FAIL` make the state `FAILED` (with
`INVALID_PAIRING_ID` resp. the payload reason) without touching any key;
other unexpected opcodes are ignored; `QUICK_VERIFY_RESPONSE` derives and
installs the session key. -/
def handleQuickVerifyResponse (storedPairingKey clientRandom : List Nat)
    (pkt : Packet) (ctx : QVState) : Except String QVState :=
  if pkt.opcode = NO_PAIRING_EXISTS then
    .ok { ctx with state := .failed, errorReason := some QV_INVALID_PAIRING_ID }
  else if pkt.opcode = QUICK_VERIFY_FAIL then
    .ok { ctx with state := .failed, errorReason := some (pkt.payload.headD 0) }
  else if pkt.opcode ≠ QUICK_VERIFY_RESPONSE then .ok ctx
  else do
    let br ← decodeQuickVerifyResponse pkt.payload
    let sk ← deriveQuickVerifySessionKey storedPairingKey clientRandom br
    .ok { ctx with
            buttonRandom := some br
            connId := pkt.connId
            sessionKey := some sk
            encoderKey := some sk
            decoderKey := some sk
            state := .quickVerifyComplete }

/-- `PairingStateMachine.handle_packet` restricted to the quick-verify flow:
packets are dispatched to `_handle_quick_verify_response` only in state
`QUICK_VERIFY_REQUEST_SENT`. -/
def handlePacketQuickVerify (storedPairingKey clientRandom : List Nat)
    (pkt : Packet) (ctx : QVState) : Except String QVState :=
  if ctx.state = .quickVerifyRequestSent then
    handleQuickVerifyResponse storedPairingKey clientRandom pkt ctx
  else .ok ctx

/-- `PairingStateMachine.get_session_key`: returns `ctx.session_key`. -/
def getSessionKey (ctx : QVState) : Option (List Nat) := ctx.sessionKey

/-! ## Session engine signed requests (`connection/client.py`) -/

/-- `int.to_bytes(len, 'little')`. -/
def toBytesLE (v len : Nat) : List Nat :=
  (List.range len).map (fun i => (v >>> (8 * i)) &&& 0xFF)

/-- The `InitButtonEventsLight` payload built by `Flic2Client.init_button_events`:
`event_count(4) ‖ boot_id(4) ‖ bitfield(5)` with
`auto_disconnect_time = 511`, `max_queued_packets = 31`,
`max_queued_packets_age = 0xFFFFF`, `enable_hid = 0`. -/
def initButtonEventsPayload : List Nat :=
  let eventCount := 0
  let bootId := 0
  let bitfieldVal : Nat := 511 ||| (31 <<< 9) ||| (0xFFFFF <<< 14) ||| (0 <<< 34)
  toBytesLE eventCount 4 ++ toBytesLE bootId 4 ++ toBytesLE bitfieldVal 5

/-- `Flic2Client.init_button_events` packet construction (client.py 508–518):
`packet_body = opcode 0x17 ‖ payload`, signature
`mac_with_dir_and_counter(packet_body, dir=1, counter=tx_counter)` (the
header byte is *not* part of the MAC input), `tx_counter += 1`, and the
final packet `conn_id-header ‖ packet_body ‖ signature`.  Returns the packet
together with the new `tx_counter`. -/
def initButtonEventsPacket (c : Chaskey) (connId txCounter : Nat) : List Nat × Nat :=
  let packetBody := INIT_BUTTON_EVENTS :: initButtonEventsPayload
  let signature := macWithDirAndCounter c packetBody 1 txCounter
  (((connId &&& 0x1F) :: packetBody) ++ signature, txCounter + 1)

/-- The framing the specification ascribes to every signed request:
`header(conn_id) ‖ opcode ‖ payload ‖ mac_with_dir_and_counter(header‖opcode‖payload,
dir=1, counter=tx_counter)`. This is the claim-side definition, to be compared
against what the code builds. -/
def claimedSignedFrame (c : Chaskey) (opcode : Nat) (payload : List Nat)
    (connId txCounter : Nat) : List Nat :=
  let body := (connId &&& 0x1F) :: opcode :: payload
  body ++ macWithDirAndCounter c body 1 txCounter

/-! ## SHA-256 and HMAC-SHA-256

`crypto/keys.py` calls Python's `hashlib.sha256` and `hmac.new(..., hashlib.sha256)`;
these are the standard FIPS 180-4 / RFC 2104 algorithms, embedded here in full. -/

/-- The 64 SHA-256 round constants (FIPS 180-4, written in decimal). -/
def shaK : List Nat :=
  [1116352408, 1899447441, 3049323471, 3921009573, 961987163, 1508970993,
   2453635748, 2870763221, 3624381080, 310598401, 607225278, 1426881987,
   1925078388, 2162078206, 2614888103, 3248222580, 3835390401, 4022224774,
   264347078, 604807628, 770255983, 1249150122, 1555081692, 1996064986,
   2554220882, 2821834349, 2952996808, 3210313671, 3336571891, 3584528711,
   113926993, 338241895, 666307205, 773529912, 1294757372, 1396182291,
   1695183700, 1986661051, 2177026350, 2456956037, 2730485921, 2820302411,
   3259730800, 3345764771, 3516065817, 3600352804, 4094571909, 275423344,
   430227734, 506948616, 659060556, 883997877, 958139571, 1322822218,
   1537002063, 1747873779, 1955562222, 2024104815, 2227730452, 2361852424,
   2428436474, 2756734187, 3204031479, 3329325298]

/-- The SHA-256 working state (registers `a`–`h`). -/
structure Sha8 where
  a : Nat
  b : Nat
  c : Nat
  d : Nat
  e : Nat
  f : Nat
  g : Nat
  h : Nat
deriving DecidableEq

/-- The SHA-256 initial hash value (FIPS 180-4, written in decimal). -/
def shaH0 : Sha8 :=
  { a := 1779033703, b := 3144134277, c := 1013904242, d := 2773480762
    e := 1359893119, f := 2600822924, g := 528734635, h := 1541459225 }

/-- Big-endian 32-bit word at byte offset `i`. -/
def be32 (bs : List Nat) (i : Nat) : Nat :=
  bs.getD i 0 * 16777216 + bs.getD (i + 1) 0 * 65536 + bs.getD (i + 2) 0 * 256 +
    bs.getD (i + 3) 0

/-- A 32-bit word as 4 big-endian bytes. -/
def be32ToBytes (w : Nat) : List Nat :=
  [(w >>> 24) &&& 0xFF, (w >>> 16) &&& 0xFF, (w >>> 8) &&& 0xFF, w &&& 0xFF]

/-- A 64-bit value as 8 big-endian bytes. -/
def be64ToBytes (n : Nat) : List Nat :=
  [(n >>> 56) &&& 0xFF, (n >>> 48) &&& 0xFF, (n >>> 40) &&& 0xFF, (n >>> 32) &&& 0xFF,
   (n >>> 24) &&& 0xFF, (n >>> 16) &&& 0xFF, (n >>> 8) &&& 0xFF, n &&& 0xFF]

/-- SHA-256 padding: `0x80`, zeros to 56 mod 64, then the bit length big-endian. -/
def shaPad (msg : List Nat) : List Nat :=
  msg ++ [0x80] ++ List.replicate ((119 - msg.length % 64) % 64) 0 ++
    be64ToBytes (8 * msg.length)

def shaSigma0 (x : Nat) : Nat := rotr32 x 7 ^^^ rotr32 x 18 ^^^ (x >>> 3)
def shaSigma1 (x : Nat) : Nat := rotr32 x 17 ^^^ rotr32 x 19 ^^^ (x >>> 10)
def shaBigSigma0 (x : Nat) : Nat := rotr32 x 2 ^^^ rotr32 x 13 ^^^ rotr32 x 22
def shaBigSigma1 (x : Nat) : Nat := rotr32 x 6 ^^^ rotr32 x 11 ^^^ rotr32 x 25
def shaCh (x y z : Nat) : Nat := (x &&& y) ^^^ ((x ^^^ 0xFFFFFFFF) &&& z)
def shaMaj (x y z : Nat) : Nat := (x &&& y) ^^^ (x &&& z) ^^^ (y &&& z)

/-- Message-schedule extension step: append word `i = w.length`. -/
def shaScheduleF : Nat → List Nat → List Nat
  | 0, w => w
  | n + 1, w =>
    let i := w.length
    shaScheduleF n (w ++ [(w.getD (i - 16) 0 + shaSigma0 (w.getD (i - 15) 0) +
      w.getD (i - 7) 0 + shaSigma1 (w.getD (i - 2) 0)) % 2 ^ 32])

/-- Message-schedule extension from 16 to 64 words. -/
def shaSchedule (w : List Nat) : List Nat := shaScheduleF (64 - w.length) w

/-- One SHA-256 compression round. -/
def shaRound (s : Sha8) (ki wi : Nat) : Sha8 :=
  let t1 := (s.h + shaBigSigma1 s.e + shaCh s.e s.f s.g + ki + wi) % 2 ^ 32
  let t2 := (shaBigSigma0 s.a + shaMaj s.a s.b s.c) % 2 ^ 32
  { a := (t1 + t2) % 2 ^ 32, b := s.a, c := s.b, d := s.c
    e := (s.d + t1) % 2 ^ 32, f := s.e, g := s.f, h := s.g }

/-- Compress one 64-byte block into the running hash. -/
def shaCompress (h0 : Sha8) (block : List Nat) : Sha8 :=
  let w := shaSchedule ((List.range 16).map (fun i => be32 block (4 * i)))
  let s := (List.zip shaK w).foldl (fun st p => shaRound st p.1 p.2) h0
  { a := (h0.a + s.a) % 2 ^ 32, b := (h0.b + s.b) % 2 ^ 32
    c := (h0.c + s.c) % 2 ^ 32, d := (h0.d + s.d) % 2 ^ 32
    e := (h0.e + s.e) % 2 ^ 32, f := (h0.f + s.f) % 2 ^ 32
    g := (h0.g + s.g) % 2 ^ 32, h := (h0.h + s.h) % 2 ^ 32 }

/-- Fold `shaCompress` over `n` leading 64-byte blocks of the data. -/
def shaBlocksF : Nat → Sha8 → List Nat → Sha8
  | 0, h, _ => h
  | n + 1, h, data => shaBlocksF n (shaCompress h (data.take 64)) (data.drop 64)

/-- Fold `shaCompress` over the 64-byte blocks of the (padded) data. -/
def shaBlocks (h : Sha8) (data : List Nat) : Sha8 :=
  shaBlocksF (data.length / 64) h data

/-- `hashlib.sha256(msg).digest()`. -/
def sha256 (msg : List Nat) : List Nat :=
  let s := shaBlocks shaH0 (shaPad msg)
  be32ToBytes s.a ++ be32ToBytes s.b ++ be32ToBytes s.c ++ be32ToBytes s.d ++
    be32ToBytes s.e ++ be32ToBytes s.f ++ be32ToBytes s.g ++ be32ToBytes s.h

/-- `hmac.new(key, msg, hashlib.sha256).digest()` (RFC 2104, block size 64). -/
def hmacSha256 (key msg : List Nat) : List Nat :=
  let k0 :=
    if 64 < key.length then sha256 key ++ List.replicate 32 0
    else key ++ List.replicate (64 - key.length) 0
  let ipadKey := k0.map (fun b => b ^^^ 0x36)
  let opadKey := k0.map (fun b => b ^^^ 0x5c)
  sha256 (opadKey ++ sha256 (ipadKey ++ msg))

/-! ## Key derivation (`crypto/keys.py`) -/

/-- `derive_full_verify_secret`:
`SHA256(shared_secret ‖ sig_bits ‖ button_random ‖ client_random ‖ 0x00)`. -/
def deriveFullVerifySecret (sharedSecret : List Nat) (sigBits : Nat)
    (buttonRandom clientRandom : List Nat) : List Nat :=
  sha256 (sharedSecret ++ [sigBits] ++ buttonRandom ++ clientRandom ++ [0x00])

/-- `derive_verifier`: `HMAC-SHA256(full_verify_secret, "AT")[:16]` (`"AT"` = `0x41 0x54`). -/
def deriveVerifier (fullVerifySecret : List Nat) : List Nat :=
  (hmacSha256 fullVerifySecret [0x41, 0x54]).take 16

/-- `derive_session_key`: `HMAC-SHA256(full_verify_secret, "SK")[:16]` (`"SK"` = `0x53 0x4B`). -/
def deriveSessionKey (fullVerifySecret : List Nat) : List Nat :=
  (hmacSha256 fullVerifySecret [0x53, 0x4B]).take 16

/-- `derive_pairing_data`: `pairing_data = HMAC-SHA256(full_verify_secret, "PK")[:20]`,
split as `pairing_id = pairing_data[:4]`, `pairing_key = pairing_data[4:20]`
(`"PK"` = `0x50 0x4B`). -/
def derivePairingData (fullVerifySecret : List Nat) : List Nat × List Nat :=
  let pairingData := (hmacSha256 fullVerifySecret [0x50, 0x4B]).take 20
  (pairingData.take 4, (pairingData.drop 4).take 16)

/-! ## Specification-side definitions

These follow the wording of the specification (not the source); refinement
theorems below compare them with the source embeddings. -/

/-- Split a message into 16-byte chunks where every chunk but the last is a
full 16-byte block and the final chunk (possibly empty, possibly exactly
16 bytes) is the one destined for the `k1`/`k2` subkey path.  This is the
spec's reading of the strict `i + block_size < len(msg)` loop guard. -/
def chunks16 (msg : List Nat) : List (List Nat) :=
  if 16 < msg.length then msg.take 16 :: chunks16 (msg.drop 16) else [msg]
termination_by msg.length
decreasing_by simp; omega

/-- `mac_with_dir_and_counter` as the specification words it: state `k`,
counter words XORed into `v[0]`/`v[1]` and `dir` into `v[2]`, permute; all
chunks except the last absorbed as regular blocks; the last chunk routed
through the `k1`/`k2` path (`k2` with `0x01` padding for a short block,
`k1` for an exact block); final permute; subkey XORed into `v[0]`/`v[1]`;
output `v[0]` little-endian followed by the low byte of `v[1]`. -/
def macWDCspec (c : Chaskey) (msg : List Nat) (direction counter : Nat) : List Nat :=
  let s0 : St :=
    { v0 := c.k.v0 ^^^ (counter &&& 0xFFFFFFFF)
      v1 := c.k.v1 ^^^ ((counter >>> 32) &&& 0xFFFFFFFF)
      v2 := c.k.v2 ^^^ direction
      v3 := c.k.v3 }
  let bs := chunks16 msg
  let s1 := bs.dropLast.foldl absorb (permute s0)
  let rem := bs.getLastD []
  let lb : List Nat × St :=
    if rem.length < 16 then (rem ++ [0x01] ++ List.replicate (15 - rem.length) 0, c.k2)
    else (rem, c.k1)
  let b := unpack4 lb.1
  let sk := lb.2
  let v := permute
    { v0 := s1.v0 ^^^ b.v0 ^^^ sk.v0, v1 := s1.v1 ^^^ b.v1 ^^^ sk.v1
      v2 := s1.v2 ^^^ b.v2 ^^^ sk.v2, v3 := s1.v3 ^^^ b.v3 ^^^ sk.v3 }
  pack32 (v.v0 ^^^ sk.v0) ++ [(v.v1 ^^^ sk.v1) &&& 0xFF]

/-- The event-type mapping as the claim words it: when `encoded >> 3 ≠ 0`,
HOLD if bit 2, else DOUBLE_CLICK if bits 1 and 0, else SINGLE_CLICK if only
bit 1, else UP; otherwise the simple mapping `0→UP, 1→DOWN, 2→CLICK,
3→SINGLE_CLICK, 4→DOUBLE_CLICK, 5→HOLD` with default UP. -/
def claimEventType (info : Nat) : ButtonEventType :=
  let enc := info &&& 0x0F
  if enc >>> 3 ≠ 0 then
    if enc &&& 0x04 ≠ 0 then .hold
    else if enc &&& 0x02 ≠ 0 ∧ enc &&& 0x01 ≠ 0 then .doubleClick
    else if enc &&& 0x02 ≠ 0 ∧ enc &&& 0x01 = 0 then .singleClick
    else .up
  else
    if enc = 0 then .up
    else if enc = 1 then .down
    else if enc = 2 then .click
    else if enc = 3 then .singleClick
    else if enc = 4 then .doubleClick
    else if enc = 5 then .hold
    else .up

/-- Button-event decoding as the claim words it: one event per complete
7-byte record, in payload order, indexed directly into the payload. -/
def buttonEventsSpec (payload : List Nat) : List ButtonEvent :=
  if payload.length < 4 then []
  else
    (List.range ((payload.length - 4) / 7)).map (fun j =>
      let info := payload.getD (4 + 7 * j + 6) 0
      { eventType := claimEventType info
        wasQueued := (info >>> 4) &&& 0x01 == 1
        pressCounter := le32 payload 0 })

/-- A 5-byte string as a number below `2^40` (base-256, little-endian);
used to count possible MAC outputs. -/
def encode5 (l : List Nat) : Nat :=
  l.getD 0 0 + l.getD 1 0 * 256 + l.getD 2 0 * 65536 + l.getD 3 0 * 16777216 +
    l.getD 4 0 * 4294967296

/-- The zero-key Chaskey instance, used for concrete counterexamples. -/
def czero : Chaskey :=
  (chaskeyOfKey (List.replicate 16 0)).getD
    { k := ⟨0, 0, 0, 0⟩, k1 := ⟨0, 0, 0, 0⟩, k2 := ⟨0, 0, 0, 0⟩ }

/-- All three keys of a `Chaskey` instance are made of 32-bit words. -/
def Chaskey.Bounded (c : Chaskey) : Prop := c.k.Bounded ∧ c.k1.Bounded ∧ c.k2.Bounded

/-! ## Arithmetic helper lemmas -/

theorem and_mask32 (x : Nat) : x &&& 0xFFFFFFFF = x % 2 ^ 32 := by
  have h := Nat.and_pow_two_sub_one_eq_mod x 32
  norm_num at h ⊢
  exact h

theorem and255 (x : Nat) : x &&& 0xFF = x % 256 := by
  have h := Nat.and_pow_two_sub_one_eq_mod x 8
  norm_num at h ⊢
  exact h

theorem and_mask32_lt (x : Nat) : x &&& 0xFFFFFFFF < 2 ^ 32 := by
  rw [and_mask32]
  exact Nat.mod_lt _ (by norm_num)

theorem and255_lt (x : Nat) : x &&& 0xFF < 256 := by
  rw [and255]
  exact Nat.mod_lt _ (by norm_num)

theorem xor_lt32 {x y : Nat} (hx : x < 2 ^ 32) (hy : y < 2 ^ 32) : x ^^^ y < 2 ^ 32 :=
  Nat.xor_lt_two_pow hx hy

/-- Arithmetic characterisation of `rotr32` for in-range words. -/
theorem rotr32_arith (x n : Nat) (hx : x < 2 ^ 32) (hn0 : 0 < n) (hn : n < 32) :
    rotr32 x n = x / 2 ^ n + x % 2 ^ n * 2 ^ (32 - n) := by
  unfold rotr32
  have hm : (0xFFFFFFFF : Nat) = 2 ^ 32 - 1 := by norm_num
  rw [hm, Nat.and_pow_two_sub_one_of_lt_two_pow hx, Nat.and_comm, Nat.and_or_distrib_left,
    Nat.and_comm _ (x >>> n), Nat.and_comm _ (x <<< (32 - n)),
    Nat.and_pow_two_sub_one_eq_mod, Nat.and_pow_two_sub_one_eq_mod,
    Nat.shiftRight_eq_div_pow, Nat.shiftLeft_eq]
  have hsplit : (2 : Nat) ^ 32 = 2 ^ n * 2 ^ (32 - n) := by
    rw [← pow_add]
    congr 1
    omega
  have hdivlt : x / 2 ^ n < 2 ^ (32 - n) := by
    rw [Nat.div_lt_iff_lt_mul (Nat.pos_pow_of_pos n (by norm_num))]
    calc x < 2 ^ 32 := hx
    _ = 2 ^ (32 - n) * 2 ^ n := by rw [← pow_add]; congr 1; omega
  have hdivmod : x / 2 ^ n % 2 ^ 32 = x / 2 ^ n :=
    Nat.mod_eq_of_lt (lt_of_lt_of_le hdivlt (Nat.pow_le_pow_right (by norm_num) (by omega)))
  have hmulmod : x * 2 ^ (32 - n) % 2 ^ 32 = x % 2 ^ n * 2 ^ (32 - n) := by
    rw [hsplit, Nat.mul_mod_mul_right]
  rw [hdivmod, hmulmod]
  have hor := Nat.mul_add_lt_is_or (i := 32 - n) hdivlt (x % 2 ^ n)
  calc x / 2 ^ n ||| x % 2 ^ n * 2 ^ (32 - n)
      = x % 2 ^ n * 2 ^ (32 - n) ||| x / 2 ^ n := Nat.or_comm _ _
    _ = 2 ^ (32 - n) * (x % 2 ^ n) ||| x / 2 ^ n := by rw [Nat.mul_comm]
    _ = 2 ^ (32 - n) * (x % 2 ^ n) + x / 2 ^ n := (hor).symm
    _ = x % 2 ^ n * 2 ^ (32 - n) + x / 2 ^ n := by rw [Nat.mul_comm]
    _ = x / 2 ^ n + x % 2 ^ n * 2 ^ (32 - n) := Nat.add_comm _ _

theorem rotr32_lt (x n : Nat) : rotr32 x n < 2 ^ 32 := by
  unfold rotr32
  exact and_mask32_lt _

/-- Rotating right by `n` then by `32 - n` is the identity on 32-bit words. -/
theorem rotr32_rotr32 {x : Nat} (n : Nat) (hx : x < 2 ^ 32) (hn0 : 0 < n) (hn : n < 32) :
    rotr32 (rotr32 x n) (32 - n) = x := by
  have h1 := rotr32_arith x n hx hn0 hn
  have h2 := rotr32_arith (rotr32 x n) (32 - n) (rotr32_lt x n) (by omega) (by omega)
  have hdivlt : x / 2 ^ n < 2 ^ (32 - n) := by
    rw [Nat.div_lt_iff_lt_mul (Nat.pos_pow_of_pos n (by norm_num))]
    calc x < 2 ^ 32 := hx
    _ = 2 ^ (32 - n) * 2 ^ n := by rw [← pow_add]; congr 1; omega
  rw [h2, h1]
  have e1 : (x / 2 ^ n + x % 2 ^ n * 2 ^ (32 - n)) / 2 ^ (32 - n) = x % 2 ^ n := by
    rw [Nat.add_mul_div_right _ _ (Nat.pos_pow_of_pos (32 - n) (by norm_num)),
      Nat.div_eq_of_lt hdivlt, Nat.zero_add]
  have e2 : (x / 2 ^ n + x % 2 ^ n * 2 ^ (32 - n)) % 2 ^ (32 - n) = x / 2 ^ n := by
    rw [Nat.add_mul_mod_self_right, Nat.mod_eq_of_lt hdivlt]
  rw [e1, e2]
  have e3 : 32 - (32 - n) = n := by omega
  rw [e3, Nat.mod_add_div']

theorem sub32_lt (a b : Nat) : sub32 a b < 2 ^ 32 := Nat.mod_lt _ (by norm_num)

/-- `sub32` undoes a masked addition. -/
theorem sub32_add {a b : Nat} (ha : a < 2 ^ 32) (hb : b < 2 ^ 32) :
    sub32 ((a + b) &&& 0xFFFFFFFF) b = a := by
  rw [and_mask32]
  unfold sub32
  omega

/-- Masked addition undoes `sub32`. -/
theorem add_sub32 {a b : Nat} (ha : a < 2 ^ 32) (hb : b < 2 ^ 32) :
    (sub32 a b + b) &&& 0xFFFFFFFF = a := by
  rw [and_mask32]
  unfold sub32
  omega

theorem xor_cancel32 (a b : Nat) : (a ^^^ b) ^^^ b = a := Nat.xor_cancel_right b a

/-- `(a ^^^ b) ^^^ a = b`. -/
theorem xor_cancel32' (a b : Nat) : (a ^^^ b) ^^^ a = b := by
  rw [Nat.xor_comm a b]
  exact xor_cancel32 b a

/-- `a ^^^ (b ^^^ a) = b`. -/
theorem xor_cancel32'' (a b : Nat) : a ^^^ (b ^^^ a) = b := by
  rw [Nat.xor_comm b a]
  exact Nat.xor_cancel_left a b

/-- Rotations by complementary amounts cancel. -/
theorem rotr32_inv_pair {x : Nat} (n m : Nat) (hx : x < 2 ^ 32) (hn : 0 < n) (hm : 0 < m)
    (hnm : n + m = 32) : rotr32 (rotr32 x n) m = x := by
  have h := rotr32_rotr32 (x := x) n hx hn (by omega)
  have e : 32 - n = m := by omega
  rwa [e] at h

/-! ## Round-step lemmas for the Chaskey permutation -/

theorem step1_bounded {s : St} (h : s.Bounded) : (step1 s).Bounded :=
  ⟨and_mask32_lt _, h.2.1, h.2.2.1, h.2.2.2⟩
theorem step2_bounded {s : St} (h : s.Bounded) : (step2 s).Bounded :=
  ⟨h.1, xor_lt32 h.1 (rotr32_lt _ _), h.2.2.1, h.2.2.2⟩
theorem step3_bounded {s : St} (h : s.Bounded) : (step3 s).Bounded :=
  ⟨h.1, h.2.1, and_mask32_lt _, h.2.2.2⟩
theorem step4_bounded {s : St} (h : s.Bounded) : (step4 s).Bounded :=
  ⟨h.1, h.2.1, h.2.2.1, xor_lt32 h.2.2.1 (rotr32_lt _ _)⟩
theorem step5_bounded {s : St} (h : s.Bounded) : (step5 s).Bounded :=
  ⟨h.1, h.2.1, and_mask32_lt _, h.2.2.2⟩
theorem step6_bounded {s : St} (h : s.Bounded) : (step6 s).Bounded :=
  ⟨and_mask32_lt _, h.2.1, h.2.2.1, h.2.2.2⟩
theorem step7_bounded {s : St} (h : s.Bounded) : (step7 s).Bounded :=
  ⟨h.1, xor_lt32 h.2.2.1 (rotr32_lt _ _), h.2.2.1, h.2.2.2⟩
theorem step8_bounded {s : St} (h : s.Bounded) : (step8 s).Bounded :=
  ⟨h.1, h.2.1, h.2.2.1, xor_lt32 h.1 (rotr32_lt _ _)⟩

theorem inv1_bounded {s : St} (h : s.Bounded) : (inv1 s).Bounded :=
  ⟨sub32_lt _ _, h.2.1, h.2.2.1, h.2.2.2⟩
theorem inv2_bounded {s : St} (h : s.Bounded) : (inv2 s).Bounded :=
  ⟨h.1, rotr32_lt _ _, h.2.2.1, h.2.2.2⟩
theorem inv3_bounded {s : St} (h : s.Bounded) : (inv3 s).Bounded :=
  ⟨h.1, h.2.1, rotr32_lt _ _, h.2.2.2⟩
theorem inv4_bounded {s : St} (h : s.Bounded) : (inv4 s).Bounded :=
  ⟨h.1, h.2.1, h.2.2.1, rotr32_lt _ _⟩
theorem inv5_bounded {s : St} (h : s.Bounded) : (inv5 s).Bounded :=
  ⟨h.1, h.2.1, sub32_lt _ _, h.2.2.2⟩
theorem inv6_bounded {s : St} (h : s.Bounded) : (inv6 s).Bounded :=
  ⟨rotr32_lt _ _, h.2.1, h.2.2.1, h.2.2.2⟩
theorem inv7_bounded {s : St} (h : s.Bounded) : (inv7 s).Bounded :=
  ⟨h.1, rotr32_lt _ _, h.2.2.1, h.2.2.2⟩
theorem inv8_bounded {s : St} (h : s.Bounded) : (inv8 s).Bounded :=
  ⟨h.1, h.2.1, h.2.2.1, rotr32_lt _ _⟩

theorem inv1_step1 {s : St} (h : s.Bounded) : inv1 (step1 s) = s := by
  obtain ⟨v0, v1, v2, v3⟩ := s
  obtain ⟨h0, h1, h2, h3⟩ := h
  simp only [step1, inv1, St.mk.injEq, and_true, true_and]
  exact sub32_add h0 h1

theorem inv2_step2 {s : St} (h : s.Bounded) : inv2 (step2 s) = s := by
  obtain ⟨v0, v1, v2, v3⟩ := s
  obtain ⟨h0, h1, h2, h3⟩ := h
  simp only [step2, inv2, St.mk.injEq, and_true, true_and]
  rw [xor_cancel32']
  exact rotr32_inv_pair 27 5 h1 (by norm_num) (by norm_num) (by norm_num)

theorem inv3_step3 {s : St} (h : s.Bounded) : inv3 (step3 s) = s := by
  obtain ⟨v0, v1, v2, v3⟩ := s
  obtain ⟨h0, h1, h2, h3⟩ := h
  simp only [step3, inv3, St.mk.injEq, and_true, true_and]
  rw [Nat.add_comm v3 (rotr32 v2 16), sub32_add (rotr32_lt _ _) h3]
  exact rotr32_inv_pair 16 16 h2 (by norm_num) (by norm_num) (by norm_num)

theorem inv4_step4 {s : St} (h : s.Bounded) : inv4 (step4 s) = s := by
  obtain ⟨v0, v1, v2, v3⟩ := s
  obtain ⟨h0, h1, h2, h3⟩ := h
  simp only [step4, inv4, St.mk.injEq, and_true, true_and]
  rw [xor_cancel32']
  exact rotr32_inv_pair 24 8 h3 (by norm_num) (by norm_num) (by norm_num)

theorem inv5_step5 {s : St} (h : s.Bounded) : inv5 (step5 s) = s := by
  obtain ⟨v0, v1, v2, v3⟩ := s
  obtain ⟨h0, h1, h2, h3⟩ := h
  simp only [step5, inv5, St.mk.injEq, and_true, true_and]
  exact sub32_add h2 h1

theorem inv6_step6 {s : St} (h : s.Bounded) : inv6 (step6 s) = s := by
  obtain ⟨v0, v1, v2, v3⟩ := s
  obtain ⟨h0, h1, h2, h3⟩ := h
  simp only [step6, inv6, St.mk.injEq, and_true, true_and]
  rw [Nat.add_comm v3 (rotr32 v0 16), sub32_add (rotr32_lt _ _) h3]
  exact rotr32_inv_pair 16 16 h0 (by norm_num) (by norm_num) (by norm_num)

theorem inv7_step7 {s : St} (h : s.Bounded) : inv7 (step7 s) = s := by
  obtain ⟨v0, v1, v2, v3⟩ := s
  obtain ⟨h0, h1, h2, h3⟩ := h
  simp only [step7, inv7, St.mk.injEq, and_true, true_and]
  rw [xor_cancel32']
  exact rotr32_inv_pair 25 7 h1 (by norm_num) (by norm_num) (by norm_num)

theorem inv8_step8 {s : St} (h : s.Bounded) : inv8 (step8 s) = s := by
  obtain ⟨v0, v1, v2, v3⟩ := s
  obtain ⟨h0, h1, h2, h3⟩ := h
  simp only [step8, inv8, St.mk.injEq, and_true, true_and]
  rw [xor_cancel32']
  exact rotr32_inv_pair 19 13 h3 (by norm_num) (by norm_num) (by norm_num)

theorem step1_inv1 {s : St} (h : s.Bounded) : step1 (inv1 s) = s := by
  obtain ⟨v0, v1, v2, v3⟩ := s
  obtain ⟨h0, h1, h2, h3⟩ := h
  simp only [step1, inv1, St.mk.injEq, and_true, true_and]
  exact add_sub32 h0 h1

theorem step2_inv2 {s : St} (h : s.Bounded) : step2 (inv2 s) = s := by
  obtain ⟨v0, v1, v2, v3⟩ := s
  obtain ⟨h0, h1, h2, h3⟩ := h
  simp only [step2, inv2, St.mk.injEq, and_true, true_and]
  rw [rotr32_inv_pair 5 27 (xor_lt32 h1 h0) (by norm_num) (by norm_num) (by norm_num)]
  exact xor_cancel32'' v0 v1

theorem step3_inv3 {s : St} (h : s.Bounded) : step3 (inv3 s) = s := by
  obtain ⟨v0, v1, v2, v3⟩ := s
  obtain ⟨h0, h1, h2, h3⟩ := h
  simp only [step3, inv3, St.mk.injEq, and_true, true_and]
  rw [rotr32_inv_pair 16 16 (sub32_lt _ _) (by norm_num) (by norm_num) (by norm_num),
    Nat.add_comm v3 (sub32 v2 v3)]
  exact add_sub32 h2 h3

theorem step4_inv4 {s : St} (h : s.Bounded) : step4 (inv4 s) = s := by
  obtain ⟨v0, v1, v2, v3⟩ := s
  obtain ⟨h0, h1, h2, h3⟩ := h
  simp only [step4, inv4, St.mk.injEq, and_true, true_and]
  rw [rotr32_inv_pair 8 24 (xor_lt32 h3 h2) (by norm_num) (by norm_num) (by norm_num)]
  exact xor_cancel32'' v2 v3

theorem step5_inv5 {s : St} (h : s.Bounded) : step5 (inv5 s) = s := by
  obtain ⟨v0, v1, v2, v3⟩ := s
  obtain ⟨h0, h1, h2, h3⟩ := h
  simp only [step5, inv5, St.mk.injEq, and_true, true_and]
  exact add_sub32 h2 h1

theorem step6_inv6 {s : St} (h : s.Bounded) : step6 (inv6 s) = s := by
  obtain ⟨v0, v1, v2, v3⟩ := s
  obtain ⟨h0, h1, h2, h3⟩ := h
  simp only [step6, inv6, St.mk.injEq, and_true, true_and]
  rw [rotr32_inv_pair 16 16 (sub32_lt _ _) (by norm_num) (by norm_num) (by norm_num),
    Nat.add_comm v3 (sub32 v0 v3)]
  exact add_sub32 h0 h3

theorem step7_inv7 {s : St} (h : s.Bounded) : step7 (inv7 s) = s := by
  obtain ⟨v0, v1, v2, v3⟩ := s
  obtain ⟨h0, h1, h2, h3⟩ := h
  simp only [step7, inv7, St.mk.injEq, and_true, true_and]
  rw [rotr32_inv_pair 7 25 (xor_lt32 h1 h2) (by norm_num) (by norm_num) (by norm_num)]
  exact xor_cancel32'' v2 v1

theorem step8_inv8 {s : St} (h : s.Bounded) : step8 (inv8 s) = s := by
  obtain ⟨v0, v1, v2, v3⟩ := s
  obtain ⟨h0, h1, h2, h3⟩ := h
  simp only [step8, inv8, St.mk.injEq, and_true, true_and]
  rw [rotr32_inv_pair 13 19 (xor_lt32 h3 h0) (by norm_num) (by norm_num) (by norm_num)]
  exact xor_cancel32'' v0 v3

/-! ## Round and permutation inverses -/

theorem chaskeyRound_bounded {s : St} (h : s.Bounded) : (chaskeyRound s).Bounded :=
  step8_bounded (step7_bounded (step6_bounded (step5_bounded (step4_bounded
    (step3_bounded (step2_bounded (step1_bounded h)))))))

theorem invRound_bounded {s : St} (h : s.Bounded) : (invRound s).Bounded :=
  inv1_bounded (inv2_bounded (inv3_bounded (inv4_bounded (inv5_bounded
    (inv6_bounded (inv7_bounded (inv8_bounded h)))))))

theorem invRound_chaskeyRound {s : St} (h : s.Bounded) : invRound (chaskeyRound s) = s := by
  have b1 := step1_bounded h
  have b2 := step2_bounded b1
  have b3 := step3_bounded b2
  have b4 := step4_bounded b3
  have b5 := step5_bounded b4
  have b6 := step6_bounded b5
  have b7 := step7_bounded b6
  unfold invRound chaskeyRound
  rw [inv8_step8 b7, inv7_step7 b6, inv6_step6 b5, inv5_step5 b4, inv4_step4 b3,
    inv3_step3 b2, inv2_step2 b1, inv1_step1 h]

theorem chaskeyRound_invRound {s : St} (h : s.Bounded) : chaskeyRound (invRound s) = s := by
  have b8 := inv8_bounded h
  have b7 := inv7_bounded b8
  have b6 := inv6_bounded b7
  have b5 := inv5_bounded b6
  have b4 := inv4_bounded b5
  have b3 := inv3_bounded b4
  have b2 := inv2_bounded b3
  unfold invRound chaskeyRound
  rw [step1_inv1 b2, step2_inv2 b3, step3_inv3 b4, step4_inv4 b5, step5_inv5 b6,
    step6_inv6 b7, step7_inv7 b8, step8_inv8 h]

theorem iterate_chaskeyRound_bounded (n : Nat) {s : St} (h : s.Bounded) :
    (chaskeyRound^[n] s).Bounded := by
  induction n with
  | zero => exact h
  | succ n ih =>
    rw [Function.iterate_succ_apply']
    exact chaskeyRound_bounded ih

theorem iterate_invRound_bounded (n : Nat) {s : St} (h : s.Bounded) :
    (invRound^[n] s).Bounded := by
  induction n with
  | zero => exact h
  | succ n ih =>
    rw [Function.iterate_succ_apply']
    exact invRound_bounded ih

theorem iterate_invRound_chaskeyRound (n : Nat) {s : St} (h : s.Bounded) :
    invRound^[n] (chaskeyRound^[n] s) = s := by
  induction n with
  | zero => rfl
  | succ n ih =>
    rw [Function.iterate_succ_apply' chaskeyRound, Function.iterate_succ_apply invRound,
      invRound_chaskeyRound (iterate_chaskeyRound_bounded n h), ih]

theorem iterate_chaskeyRound_invRound (n : Nat) {s : St} (h : s.Bounded) :
    chaskeyRound^[n] (invRound^[n] s) = s := by
  induction n with
  | zero => rfl
  | succ n ih =>
    rw [Function.iterate_succ_apply' invRound, Function.iterate_succ_apply chaskeyRound,
      chaskeyRound_invRound (iterate_invRound_bounded n h), ih]

theorem permute_bounded {s : St} (h : s.Bounded) : (permute s).Bounded := by
  obtain ⟨h0, h1, h2, h3⟩ := h
  have hpre : (St.mk s.v0 s.v1 (rotr32 s.v2 16) s.v3).Bounded := ⟨h0, h1, rotr32_lt _ _, h3⟩
  have ht := iterate_chaskeyRound_bounded 16 hpre
  exact ⟨ht.1, ht.2.1, rotr32_lt _ _, ht.2.2.2⟩

theorem invPermute_bounded {s : St} (h : s.Bounded) : (invPermute s).Bounded := by
  obtain ⟨h0, h1, h2, h3⟩ := h
  have hpre : (St.mk s.v0 s.v1 (rotr32 s.v2 16) s.v3).Bounded := ⟨h0, h1, rotr32_lt _ _, h3⟩
  have ht := iterate_invRound_bounded 16 hpre
  exact ⟨ht.1, ht.2.1, rotr32_lt _ _, ht.2.2.2⟩

theorem invPermute_permute {s : St} (h : s.Bounded) : invPermute (permute s) = s := by
  obtain ⟨v0, v1, v2, v3⟩ := s
  obtain ⟨h0, h1, h2, h3⟩ := h
  have hpre : (St.mk v0 v1 (rotr32 v2 16) v3).Bounded := ⟨h0, h1, rotr32_lt _ _, h3⟩
  have ht := iterate_chaskeyRound_bounded 16 hpre
  unfold permute invPermute
  simp only
  rw [rotr32_inv_pair 16 16 ht.2.2.1 (by norm_num) (by norm_num) (by norm_num)]
  rw [show (St.mk (chaskeyRound^[16] ⟨v0, v1, rotr32 v2 16, v3⟩).v0
        (chaskeyRound^[16] ⟨v0, v1, rotr32 v2 16, v3⟩).v1
        (chaskeyRound^[16] ⟨v0, v1, rotr32 v2 16, v3⟩).v2
        (chaskeyRound^[16] ⟨v0, v1, rotr32 v2 16, v3⟩).v3)
      = chaskeyRound^[16] ⟨v0, v1, rotr32 v2 16, v3⟩ from rfl]
  rw [iterate_invRound_chaskeyRound 16 hpre]
  simp only [St.mk.injEq, and_true, true_and]
  exact rotr32_inv_pair 16 16 h2 (by norm_num) (by norm_num) (by norm_num)

theorem permute_invPermute {s : St} (h : s.Bounded) : permute (invPermute s) = s := by
  obtain ⟨v0, v1, v2, v3⟩ := s
  obtain ⟨h0, h1, h2, h3⟩ := h
  have hpre : (St.mk v0 v1 (rotr32 v2 16) v3).Bounded := ⟨h0, h1, rotr32_lt _ _, h3⟩
  have ht := iterate_invRound_bounded 16 hpre
  unfold permute invPermute
  simp only
  rw [rotr32_inv_pair 16 16 ht.2.2.1 (by norm_num) (by norm_num) (by norm_num)]
  rw [show (St.mk (invRound^[16] ⟨v0, v1, rotr32 v2 16, v3⟩).v0
        (invRound^[16] ⟨v0, v1, rotr32 v2 16, v3⟩).v1
        (invRound^[16] ⟨v0, v1, rotr32 v2 16, v3⟩).v2
        (invRound^[16] ⟨v0, v1, rotr32 v2 16, v3⟩).v3)
      = invRound^[16] ⟨v0, v1, rotr32 v2 16, v3⟩ from rfl]
  rw [iterate_chaskeyRound_invRound 16 hpre]
  simp only [St.mk.injEq, and_true, true_and]
  exact rotr32_inv_pair 16 16 h2 (by norm_num) (by norm_num) (by norm_num)

/-! ## Bytes ↔ words round trips -/

theorem getD_lt_256 {l : List Nat} (h : ∀ b ∈ l, b < 256) (i : Nat) : l.getD i 0 < 256 := by
  rcases Nat.lt_or_ge i l.length with hi | hi
  · rw [List.getD_eq_getElem _ 0 hi]
    exact h _ (List.getElem_mem hi)
  · rw [List.getD_eq_getElem?_getD, List.getElem?_eq_none hi]
    norm_num

theorem le32_lt {bs : List Nat} (h : ∀ b ∈ bs, b < 256) (i : Nat) : le32 bs i < 2 ^ 32 := by
  have h0 := getD_lt_256 h i
  have h1 := getD_lt_256 h (i + 1)
  have h2 := getD_lt_256 h (i + 2)
  have h3 := getD_lt_256 h (i + 3)
  unfold le32
  omega

theorem unpack4_bounded {bs : List Nat} (h : ∀ b ∈ bs, b < 256) : (unpack4 bs).Bounded :=
  ⟨le32_lt h 0, le32_lt h 4, le32_lt h 8, le32_lt h 12⟩

theorem pack16_valid (s : St) : ValidBlock (pack16 s) := by
  constructor
  · rfl
  · intro b hb
    simp only [pack16, pack32, List.mem_append, List.mem_cons, List.not_mem_nil, or_false,
      or_assoc] at hb
    rcases hb with h | h | h | h | h | h | h | h | h | h | h | h | h | h | h | h <;>
      (subst h; exact and255_lt _)

theorem unpack4_pack16 {s : St} (h : s.Bounded) : unpack4 (pack16 s) = s := by
  obtain ⟨v0, v1, v2, v3⟩ := s
  obtain ⟨h0, h1, h2, h3⟩ := h
  replace h0 : v0 < 2 ^ 32 := h0
  replace h1 : v1 < 2 ^ 32 := h1
  replace h2 : v2 < 2 ^ 32 := h2
  replace h3 : v3 < 2 ^ 32 := h3
  simp only [pack16, pack32, unpack4, le32, List.cons_append, List.nil_append,
    List.getD_cons_zero, List.getD_cons_succ, St.mk.injEq]
  simp only [and255, Nat.shiftRight_eq_div_pow]
  norm_num
  omega

theorem pack16_unpack4 {bs : List Nat} (h : ValidBlock bs) : pack16 (unpack4 bs) = bs := by
  obtain ⟨hlen, hbytes⟩ := h
  have hb : ∀ i, bs.getD i 0 < 256 := getD_lt_256 hbytes
  apply List.ext_getElem
  · simp [pack16, pack32, hlen]
  · intro i h1 h2
    have h16 : i < 16 := by
      simp only [hlen] at h2
      exact h2
    rw [← List.getD_eq_getElem bs 0 h2]
    have e0 := hb 0
    have e1 := hb 1
    have e2 := hb 2
    have e3 := hb 3
    have e4 := hb 4
    have e5 := hb 5
    have e6 := hb 6
    have e7 := hb 7
    have e8 := hb 8
    have e9 := hb 9
    have e10 := hb 10
    have e11 := hb 11
    have e12 := hb 12
    have e13 := hb 13
    have e14 := hb 14
    have e15 := hb 15
    interval_cases i <;>
      (simp only [pack16, pack32, unpack4, le32, List.cons_append, List.nil_append,
        List.getElem_cons_zero, List.getElem_cons_succ, and255, Nat.shiftRight_eq_div_pow,
        Nat.reduceAdd]
       omega)

/-! ## Block-cipher round trip -/

theorem st_eta (s : St) : St.mk s.v0 s.v1 s.v2 s.v3 = s := rfl

theorem timesTwo_bounded (k : St) : (timesTwo k).Bounded :=
  ⟨and_mask32_lt _, and_mask32_lt _, and_mask32_lt _, and_mask32_lt _⟩

theorem chaskeyOfKey_bounded {key : List Nat} {c : Chaskey}
    (h : chaskeyOfKey key = some c) (hv : ∀ b ∈ key, b < 256) : c.Bounded := by
  unfold chaskeyOfKey at h
  split at h
  · rw [Option.some_inj] at h
    subst h
    exact ⟨unpack4_bounded hv, timesTwo_bounded _, timesTwo_bounded _⟩
  · exact absurd h (by simp)

theorem encryptBlock_isSome {c : Chaskey} {p : List Nat} (hp : p.length = 16) :
    ∃ ct, encryptBlock c p = some ct := by
  unfold encryptBlock
  rw [if_pos hp]
  exact ⟨_, rfl⟩

theorem encryptBlock_valid {c : Chaskey} {p ct : List Nat}
    (h : encryptBlock c p = some ct) : ValidBlock ct := by
  unfold encryptBlock at h
  split at h
  · rw [Option.some_inj] at h
    subst h
    exact pack16_valid _
  · exact absurd h (by simp)

theorem decryptBlock_valid {c : Chaskey} {ct p : List Nat}
    (h : decryptBlock c ct = some p) : ValidBlock p := by
  unfold decryptBlock at h
  split at h
  · rw [Option.some_inj] at h
    subst h
    exact pack16_valid _
  · exact absurd h (by simp)

theorem decryptBlock_isSome {c : Chaskey} {ct : List Nat} (hct : ct.length = 16) :
    ∃ p, decryptBlock c ct = some p := by
  unfold decryptBlock
  rw [if_pos hct]
  exact ⟨_, rfl⟩

theorem decrypt_encrypt {c : Chaskey} {p ct : List Nat} (hc : c.Bounded)
    (hp : ValidBlock p) (h : encryptBlock c p = some ct) : decryptBlock c ct = some p := by
  obtain ⟨hck, hk1, _⟩ := hc
  obtain ⟨hlen, hbytes⟩ := hp
  have hb : (unpack4 p).Bounded := unpack4_bounded hbytes
  have hz : (St.mk ((unpack4 p).v0 ^^^ c.k.v0 ^^^ c.k1.v0)
      ((unpack4 p).v1 ^^^ c.k.v1 ^^^ c.k1.v1)
      ((unpack4 p).v2 ^^^ c.k.v2 ^^^ c.k1.v2)
      ((unpack4 p).v3 ^^^ c.k.v3 ^^^ c.k1.v3)).Bounded :=
    ⟨xor_lt32 (xor_lt32 hb.1 hck.1) hk1.1,
     xor_lt32 (xor_lt32 hb.2.1 hck.2.1) hk1.2.1,
     xor_lt32 (xor_lt32 hb.2.2.1 hck.2.2.1) hk1.2.2.1,
     xor_lt32 (xor_lt32 hb.2.2.2 hck.2.2.2) hk1.2.2.2⟩
  have hv := permute_bounded hz
  unfold encryptBlock at h
  rw [if_pos hlen, Option.some_inj] at h
  subst h
  unfold decryptBlock
  rw [if_pos (pack16_valid _).1]
  have hV : (St.mk ((permute (St.mk ((unpack4 p).v0 ^^^ c.k.v0 ^^^ c.k1.v0)
      ((unpack4 p).v1 ^^^ c.k.v1 ^^^ c.k1.v1)
      ((unpack4 p).v2 ^^^ c.k.v2 ^^^ c.k1.v2)
      ((unpack4 p).v3 ^^^ c.k.v3 ^^^ c.k1.v3))).v0 ^^^ c.k1.v0)
      ((permute (St.mk ((unpack4 p).v0 ^^^ c.k.v0 ^^^ c.k1.v0)
      ((unpack4 p).v1 ^^^ c.k.v1 ^^^ c.k1.v1)
      ((unpack4 p).v2 ^^^ c.k.v2 ^^^ c.k1.v2)
      ((unpack4 p).v3 ^^^ c.k.v3 ^^^ c.k1.v3))).v1 ^^^ c.k1.v1)
      ((permute (St.mk ((unpack4 p).v0 ^^^ c.k.v0 ^^^ c.k1.v0)
      ((unpack4 p).v1 ^^^ c.k.v1 ^^^ c.k1.v1)
      ((unpack4 p).v2 ^^^ c.k.v2 ^^^ c.k1.v2)
      ((unpack4 p).v3 ^^^ c.k.v3 ^^^ c.k1.v3))).v2 ^^^ c.k1.v2)
      ((permute (St.mk ((unpack4 p).v0 ^^^ c.k.v0 ^^^ c.k1.v0)
      ((unpack4 p).v1 ^^^ c.k.v1 ^^^ c.k1.v1)
      ((unpack4 p).v2 ^^^ c.k.v2 ^^^ c.k1.v2)
      ((unpack4 p).v3 ^^^ c.k.v3 ^^^ c.k1.v3))).v3 ^^^ c.k1.v3)).Bounded :=
    ⟨xor_lt32 hv.1 hk1.1, xor_lt32 hv.2.1 hk1.2.1,
     xor_lt32 hv.2.2.1 hk1.2.2.1, xor_lt32 hv.2.2.2 hk1.2.2.2⟩
  rw [unpack4_pack16 hV]
  simp only [xor_cancel32, st_eta]
  rw [invPermute_permute hz]
  simp only [xor_cancel32, st_eta]
  rw [pack16_unpack4 ⟨hlen, hbytes⟩]

theorem encrypt_decrypt {c : Chaskey} {ct p : List Nat} (hc : c.Bounded)
    (hct : ValidBlock ct) (h : decryptBlock c ct = some p) : encryptBlock c p = some ct := by
  obtain ⟨hck, hk1, _⟩ := hc
  obtain ⟨hlen, hbytes⟩ := hct
  have hb : (unpack4 ct).Bounded := unpack4_bounded hbytes
  have hz : (St.mk ((unpack4 ct).v0 ^^^ c.k1.v0) ((unpack4 ct).v1 ^^^ c.k1.v1)
      ((unpack4 ct).v2 ^^^ c.k1.v2) ((unpack4 ct).v3 ^^^ c.k1.v3)).Bounded :=
    ⟨xor_lt32 hb.1 hk1.1, xor_lt32 hb.2.1 hk1.2.1,
     xor_lt32 hb.2.2.1 hk1.2.2.1, xor_lt32 hb.2.2.2 hk1.2.2.2⟩
  have hv := invPermute_bounded hz
  unfold decryptBlock at h
  rw [if_pos hlen, Option.some_inj] at h
  subst h
  unfold encryptBlock
  rw [if_pos (pack16_valid _).1]
  have hV : (St.mk ((invPermute (St.mk ((unpack4 ct).v0 ^^^ c.k1.v0)
      ((unpack4 ct).v1 ^^^ c.k1.v1) ((unpack4 ct).v2 ^^^ c.k1.v2)
      ((unpack4 ct).v3 ^^^ c.k1.v3))).v0 ^^^ c.k1.v0 ^^^ c.k.v0)
      ((invPermute (St.mk ((unpack4 ct).v0 ^^^ c.k1.v0)
      ((unpack4 ct).v1 ^^^ c.k1.v1) ((unpack4 ct).v2 ^^^ c.k1.v2)
      ((unpack4 ct).v3 ^^^ c.k1.v3))).v1 ^^^ c.k1.v1 ^^^ c.k.v1)
      ((invPermute (St.mk ((unpack4 ct).v0 ^^^ c.k1.v0)
      ((unpack4 ct).v1 ^^^ c.k1.v1) ((unpack4 ct).v2 ^^^ c.k1.v2)
      ((unpack4 ct).v3 ^^^ c.k1.v3))).v2 ^^^ c.k1.v2 ^^^ c.k.v2)
      ((invPermute (St.mk ((unpack4 ct).v0 ^^^ c.k1.v0)
      ((unpack4 ct).v1 ^^^ c.k1.v1) ((unpack4 ct).v2 ^^^ c.k1.v2)
      ((unpack4 ct).v3 ^^^ c.k1.v3))).v3 ^^^ c.k1.v3 ^^^ c.k.v3)).Bounded :=
    ⟨xor_lt32 (xor_lt32 hv.1 hk1.1) hck.1,
     xor_lt32 (xor_lt32 hv.2.1 hk1.2.1) hck.2.1,
     xor_lt32 (xor_lt32 hv.2.2.1 hk1.2.2.1) hck.2.2.1,
     xor_lt32 (xor_lt32 hv.2.2.2 hk1.2.2.2) hck.2.2.2⟩
  rw [unpack4_pack16 hV]
  simp only [xor_cancel32, st_eta]
  rw [permute_invPermute hz]
  simp only [xor_cancel32, st_eta]
  rw [pack16_unpack4 ⟨hlen, hbytes⟩]

/-! ## Loop lemmas: the strict-guard block loop versus the chunk decomposition -/

theorem macWDCBlocksF_irrel (f1 : Nat) : ∀ (f2 : Nat) (s : St) (msg : List Nat),
    msg.length ≤ f1 → msg.length ≤ f2 →
    macWDCBlocksF f1 s msg = macWDCBlocksF f2 s msg := by
  induction f1 with
  | zero =>
    intro f2 s msg h1 h2
    cases f2 with
    | zero => rfl
    | succ f2 =>
      simp only [macWDCBlocksF]
      rw [if_neg (by omega)]
  | succ f1 ih =>
    intro f2 s msg h1 h2
    by_cases hg : 16 < msg.length
    · cases f2 with
      | zero => omega
      | succ f2 =>
        simp only [macWDCBlocksF]
        rw [if_pos hg, if_pos hg]
        exact ih f2 _ _ (by simp; omega) (by simp; omega)
    · cases f2 with
      | zero =>
        simp only [macWDCBlocksF]
        rw [if_neg hg]
      | succ f2 =>
        simp only [macWDCBlocksF]
        rw [if_neg hg, if_neg hg]

/-- The defining `while` equation of the strict-guard loop. -/
theorem macWDCBlocks_unfold (s : St) (msg : List Nat) :
    macWDCBlocks s msg =
      if 16 < msg.length then macWDCBlocks (absorb s (msg.take 16)) (msg.drop 16)
      else (s, msg) := by
  unfold macWDCBlocks
  rw [macWDCBlocksF_irrel msg.length (msg.length + 1) s msg le_rfl (by omega)]
  simp only [macWDCBlocksF]
  by_cases hg : 16 < msg.length
  · rw [if_pos hg, if_pos hg]
    exact macWDCBlocksF_irrel msg.length (msg.drop 16).length _ _ (by simp) (by simp)
  · rw [if_neg hg, if_neg hg]

theorem chunks16_ne_nil (msg : List Nat) : chunks16 msg ≠ [] := by
  rw [chunks16.eq_def]
  split <;> simp

theorem getLastD_cons_of_ne_nil {α : Type} {l : List α} (h : l ≠ []) (a d : α) :
    (a :: l).getLastD d = l.getLastD d := by
  cases l with
  | nil => exact absurd rfl h
  | cons b t => simp [List.getLastD_cons]

/-- The strict-guard loop absorbs exactly the chunks before the last one and
leaves the last chunk as the remaining bytes. -/
theorem macWDCBlocks_chunks_aux : ∀ (n : Nat) (msg : List Nat), msg.length ≤ n → ∀ s : St,
    macWDCBlocks s msg =
      ((chunks16 msg).dropLast.foldl absorb s, (chunks16 msg).getLastD []) := by
  intro n
  induction n with
  | zero =>
    intro msg h s
    rw [macWDCBlocks_unfold, if_neg (by omega), chunks16.eq_def, if_neg (by omega)]
    simp
  | succ n ih =>
    intro msg h s
    by_cases hg : 16 < msg.length
    · rw [macWDCBlocks_unfold, if_pos hg, chunks16.eq_def, if_pos hg]
      rw [ih (msg.drop 16) (by simp; omega) (absorb s (msg.take 16))]
      have hne := chunks16_ne_nil (msg.drop 16)
      rw [List.dropLast_cons_of_ne_nil hne, List.foldl_cons,
        getLastD_cons_of_ne_nil hne]
    · rw [macWDCBlocks_unfold, if_neg hg, chunks16.eq_def, if_neg hg]
      simp

theorem macWDCBlocks_chunks (s : St) (msg : List Nat) :
    macWDCBlocks s msg =
      ((chunks16 msg).dropLast.foldl absorb s, (chunks16 msg).getLastD []) :=
  macWDCBlocks_chunks_aux msg.length msg le_rfl s

/-! ## Button-event loop lemmas -/

theorem buttonEventLoop_eq (pc : Nat) : ∀ (n : Nat) (rest : List Nat), rest.length ≤ n →
    buttonEventLoop pc rest = (List.range (rest.length / 7)).map
      (fun j => mkButtonEvent pc (rest.getD (7 * j + 6) 0)) := by
  intro n
  induction n with
  | zero =>
    intro rest h
    rw [buttonEventLoop.eq_def, if_neg (by omega), Nat.div_eq_of_lt (by omega)]
    rfl
  | succ n ih =>
    intro rest h
    rw [buttonEventLoop.eq_def]
    by_cases hg : 7 ≤ rest.length
    · rw [if_pos hg, ih (rest.drop 7) (by simp; omega)]
      have hlen : rest.length / 7 = (rest.length - 7) / 7 + 1 :=
        Nat.div_eq_sub_div (by norm_num) hg
      rw [hlen, List.range_succ_eq_map, List.map_cons, List.map_map]
      congr 1
      simp only [List.length_drop]
      apply List.map_congr_left
      intro j hj
      simp only [Function.comp, List.getD_eq_getElem?_getD, List.getElem?_drop,
        Nat.succ_eq_add_one]
      have e : 7 + (7 * j + 6) = 7 * (j + 1) + 6 := by ring
      rw [e]
    · rw [if_neg hg, Nat.div_eq_of_lt (by omega)]
      rfl

theorem eventTypeOfInfo_eq_claim (info : Nat) : eventTypeOfInfo info = claimEventType info := by
  have h : info &&& 0x0F < 16 :=
    Nat.and_lt_two_pow info (show (0x0F : Nat) < 2 ^ 4 by norm_num)
  unfold eventTypeOfInfo claimEventType
  generalize hg : info &&& 0x0F = enc
  rw [hg] at h
  interval_cases enc <;> rfl

theorem wasQueued_eq (info : Nat) :
    ((info >>> 4) &&& 0x01 != 0) = ((info >>> 4) &&& 0x01 == 1) := by
  have h : (info >>> 4) &&& 0x01 < 2 :=
    Nat.and_lt_two_pow (info >>> 4) (show (0x01 : Nat) < 2 ^ 1 by norm_num)
  generalize hg : (info >>> 4) &&& 0x01 = t
  rw [hg] at h
  interval_cases t <;> rfl

/-! ## Claim C2 -/

/-- C2: `mac_with_dir_and_counter` initialises the state to the key, XORs the
counter low word into `v[0]`, the counter high word into `v[1]` and the
direction into `v[2]`, permutes, absorbs 16-byte blocks under the strict
guard `i + block_size < len(msg)` so that the last block is always routed
through the `k1`/`k2` subkey path (`k2` with `0x01` padding for a short
block — even an empty one — and `k1` for an exact 16-byte block, also when
the length is a multiple of 16), performs a final permute, XORs the chosen
subkey into `v[0]` and `v[1]`, and returns the 5 bytes `v[0]`
(little-endian) followed by the low byte of `v[1]`: the source function
equals the specification-worded `macWDCspec` on all inputs. -/
theorem macWithDirAndCounter_matches_spec (c : Chaskey) (msg : List Nat)
    (direction counter : Nat) :
    macWithDirAndCounter c msg direction counter = macWDCspec c msg direction counter := by
  unfold macWithDirAndCounter macWDCspec
  simp only [macWDCBlocks_chunks, lastBlock]

/-! ## Claim C4 -/

/-- C4: `decode_button_event` returns one `ButtonEvent` per complete 7-byte
record, in payload order, each with `encoded = info & 0x0F`,
`was_queued = (info >> 4) & 1`, the shared little-endian `press_counter`,
and the event type given by the claim's bit decoding (HOLD / DOUBLE_CLICK /
SINGLE_CLICK / UP when `encoded >> 3 ≠ 0`, else the simple mapping with
default UP): the source decoder equals the claim-worded `buttonEventsSpec`
on all payloads. -/
theorem decodeButtonEvent_matches_spec (payload : List Nat) :
    decodeButtonEvent payload = buttonEventsSpec payload := by
  unfold decodeButtonEvent buttonEventsSpec
  by_cases h4 : payload.length < 4
  · rw [if_pos h4, if_pos h4]
  · rw [if_neg h4, if_neg h4]
    rw [buttonEventLoop_eq (le32 payload 0) (payload.drop 4).length (payload.drop 4) le_rfl]
    simp only [List.length_drop]
    apply List.map_congr_left
    intro j hj
    unfold mkButtonEvent
    rw [eventTypeOfInfo_eq_claim, wasQueued_eq]
    simp only [List.getD_eq_getElem?_getD, List.getElem?_drop]
    have e : 4 + (7 * j + 6) = 4 + 7 * j + 6 := by ring
    rw [e]

/-! ## Claim C5 -/

/-- C5 counterexample: on a `FullVerifyResponse1` payload of exactly 115
bytes (no flags byte), the handler does **not** fail with
`NOT_IN_PAIRING_MODE` — it proceeds to the Ed25519-signature step. -/
theorem fullVerifyResponse1_len115_proceeds :
    handleFullVerifyResponse1
        { connId := 0, newlyAssigned := false, isMulti := false, isFragment := false,
          opcode := 0, payload := List.replicate 115 0, signature := none }
      ≠ FVR1Step.notInPairingMode ∧
    handleFullVerifyResponse1
        { connId := 0, newlyAssigned := false, isMulti := false, isFragment := false,
          opcode := 0, payload := List.replicate 115 0, signature := none }
      = FVR1Step.continueToSignature (List.replicate 64 0) (List.replicate 6 0) 0
          (List.replicate 32 0) (List.replicate 8 0) := by
  constructor <;> decide

/-- C5 (amended): when the payload length is at least 116 the handler reads
the flags byte at offset 115 and fails with `NOT_IN_PAIRING_MODE` exactly
when `(flags >> 1) & 1` is clear; when the payload length is exactly 115
(no flags byte) the handler skips the flags check and proceeds to the
Ed25519-signature step. -/
theorem fullVerifyResponse1_flags_check (payload : List Nat) :
    (116 ≤ payload.length → (payload.getD 115 0 >>> 1) &&& 0x01 = 0 →
      handleFullVerifyResponse1
          { connId := 0, newlyAssigned := false, isMulti := false, isFragment := false,
            opcode := 0, payload := payload, signature := none }
        = FVR1Step.notInPairingMode)
    ∧ (116 ≤ payload.length → (payload.getD 115 0 >>> 1) &&& 0x01 ≠ 0 →
      handleFullVerifyResponse1
          { connId := 0, newlyAssigned := false, isMulti := false, isFragment := false,
            opcode := 0, payload := payload, signature := none }
        = FVR1Step.continueToSignature ((payload.drop 4).take 64) ((payload.drop 68).take 6)
            (payload.getD 74 0) ((payload.drop 75).take 32) ((payload.drop 107).take 8))
    ∧ (payload.length = 115 →
      handleFullVerifyResponse1
          { connId := 0, newlyAssigned := false, isMulti := false, isFragment := false,
            opcode := 0, payload := payload, signature := none }
        = FVR1Step.continueToSignature ((payload.drop 4).take 64) ((payload.drop 68).take 6)
            (payload.getD 74 0) ((payload.drop 75).take 32) ((payload.drop 107).take 8)) := by
  refine ⟨fun h116 hbit => ?_, fun h116 hbit => ?_, fun h115 => ?_⟩
  · simp only [handleFullVerifyResponse1, decodeFullVerifyResponse1,
      FULL_VERIFY_FAIL_RESPONSE_1, FULL_VERIFY_RESPONSE_1]
    rw [if_neg (by norm_num), if_neg (by norm_num), if_neg (by omega)]
    simp only
    rw [if_pos ⟨by omega, hbit⟩]
  · simp only [handleFullVerifyResponse1, decodeFullVerifyResponse1,
      FULL_VERIFY_FAIL_RESPONSE_1, FULL_VERIFY_RESPONSE_1]
    rw [if_neg (by norm_num), if_neg (by norm_num), if_neg (by omega)]
    simp only
    rw [if_neg (by intro hc; exact hbit hc.2)]
  · simp only [handleFullVerifyResponse1, decodeFullVerifyResponse1,
      FULL_VERIFY_FAIL_RESPONSE_1, FULL_VERIFY_RESPONSE_1]
    rw [if_neg (by norm_num), if_neg (by norm_num), if_neg (by omega)]
    simp only
    rw [if_neg (by intro hc; omega)]

/-- C5 witness for the amended theorem. -/
theorem fullVerifyResponse1_flags_check_witness :
    (116 ≤ (List.replicate 116 0).length ∧ ((List.replicate 116 0).getD 115 0 >>> 1) &&& 0x01 = 0) ∧
    handleFullVerifyResponse1
        { connId := 0, newlyAssigned := false, isMulti := false, isFragment := false,
          opcode := 0, payload := List.replicate 116 0, signature := none }
      = FVR1Step.notInPairingMode :=
  ⟨⟨by decide, by decide⟩,
    (fullVerifyResponse1_flags_check (List.replicate 116 0)).1 (by decide) (by decide)⟩

/-! ## Claim C6 -/

/-- C6: a `NO_PAIRING_EXISTS` packet (opcode 0x06) received in state
`QUICK_VERIFY_REQUEST_SENT` makes the state machine transition to the
terminal `FAILED` state with error reason `INVALID_PAIRING_ID`, and installs
no session key: the context's `session_key` and the encoder/decoder keys are
exactly what they were before (so an absent key stays absent), which is also
what `get_session_key` reports. -/
theorem noPairingExists_fails_without_key (storedPairingKey clientRandom payload : List Nat)
    (connId : Nat) (na m f : Bool) (sig : Option (List Nat)) (ctx : QVState) :
    handlePacketQuickVerify storedPairingKey clientRandom
        { connId := connId, newlyAssigned := na, isMulti := m, isFragment := f,
          opcode := 0x06, payload := payload, signature := sig }
        { ctx with state := .quickVerifyRequestSent }
      = .ok { ctx with state := .failed, errorReason := some QV_INVALID_PAIRING_ID }
    ∧ ({ ctx with state := .failed, errorReason := some QV_INVALID_PAIRING_ID } : QVState).sessionKey = ctx.sessionKey
    ∧ ({ ctx with state := .failed, errorReason := some QV_INVALID_PAIRING_ID } : QVState).encoderKey = ctx.encoderKey
    ∧ ({ ctx with state := .failed, errorReason := some QV_INVALID_PAIRING_ID } : QVState).decoderKey = ctx.decoderKey
    ∧ getSessionKey { ctx with state := .failed, errorReason := some QV_INVALID_PAIRING_ID } = ctx.sessionKey := by
  refine ⟨?_, rfl, rfl, rfl, rfl⟩
  simp [handlePacketQuickVerify, handleQuickVerifyResponse, NO_PAIRING_EXISTS]

/-! ## Claim C7 -/

theorem header_facts (connId : Nat) (hc : connId < 32) (na : Bool) :
    (((connId &&& 0x1F) ||| (if na then 0x20 else 0)) &&& 0x1F = connId)
    ∧ ((((connId &&& 0x1F) ||| (if na then 0x20 else 0)) &&& 0x20 != 0) = na)
    ∧ ((((connId &&& 0x1F) ||| (if na then 0x20 else 0)) &&& 0x40 != 0) = false)
    ∧ ((((connId &&& 0x1F) ||| (if na then 0x20 else 0)) &&& 0x80 != 0) = false) := by
  cases na <;> (interval_cases connId <;> decide)

/-- C7: decoding an unsigned encoded packet recovers exactly the same
opcode, payload, conn_id and `newly_assigned` flag, with `multi` and
`fragment` false and no signature. -/
theorem decode_encode_roundtrip (opcode : Nat) (payload : List Nat) (connId : Nat)
    (newlyAssigned : Bool) (hc : connId < 32) (ho : opcode < 256) :
    decode none (encode none opcode payload connId newlyAssigned false) false =
      .ok { connId := connId, newlyAssigned := newlyAssigned, isMulti := false,
            isFragment := false, opcode := opcode, payload := payload, signature := none } := by
  obtain ⟨e1, e2, e3, e4⟩ := header_facts connId hc newlyAssigned
  simp only [encode, decode, CONN_ID_MASK, NEWLY_ASSIGNED_BIT, MULTI_BIT, FRAGMENT_BIT] at e1 e2 e3 e4 ⊢
  rw [if_neg (by simp)]
  simp only [List.getD_cons_zero, List.getD_cons_succ, List.drop_succ_cons, List.drop_zero]
  rw [e1, e2, e3, e4]

/-! ## Claim C10 -/

/-- C10 counterexample: with no session key and `verify_signature=True`, a
1-byte packet (which is at most `SIGNATURE_LENGTH + 2 = 7` bytes) is not
returned as a packet whose payload is the tail after header and opcode —
`decode` raises `ValueError` (\"Packet too short\") instead. -/
theorem decode_short_data_errors :
    decode none [0] true = Except.error DecodeError.tooShort := rfl

/-- C10 (amended): if `decode` is called with `verify_signature=True` but no
session key installed, or with `verify_signature=False`, or on data of at
most `SIGNATURE_LENGTH + 2 = 7` bytes, then — provided the data has at least
the 2 header/opcode bytes — no signature check is performed and the entire
tail after the header and opcode bytes (including any trailing MAC bytes) is
returned as the payload with `signature = None`; and an
`InvalidSignatureError` is raised exactly when verification was requested, a
key is installed, the data exceeds 7 bytes, and the trailing 5 bytes differ
from `mac5` of the rest. -/
theorem decode_signature_gating (chas : Option Chaskey) (data : List Nat) (verify : Bool) :
    (2 ≤ data.length → (verify = false ∨ chas = none ∨ data.length ≤ SIGNATURE_LENGTH + 2) →
      decode chas data verify = .ok
        { connId := data.getD 0 0 &&& CONN_ID_MASK
          newlyAssigned := data.getD 0 0 &&& NEWLY_ASSIGNED_BIT != 0
          isMulti := data.getD 0 0 &&& MULTI_BIT != 0
          isFragment := data.getD 0 0 &&& FRAGMENT_BIT != 0
          opcode := data.getD 1 0
          payload := data.drop 2
          signature := none })
    ∧ (decode chas data verify = .error .invalidSignature ↔
        verify = true ∧ ∃ c, chas = some c ∧ SIGNATURE_LENGTH + 2 < data.length ∧
          data.drop (data.length - SIGNATURE_LENGTH) ≠
            mac5 c (data.take (data.length - SIGNATURE_LENGTH))) := by
  constructor
  · intro h2 hcond
    cases chas with
    | none =>
      simp only [decode]
      rw [if_neg (by omega)]
    | some c =>
      simp only [decode]
      rw [if_neg (by omega)]
      rcases hcond with hv | hn | hl
      · have hno : ¬(verify = true ∧ SIGNATURE_LENGTH + 2 < data.length) := by
          simp [hv]
        rw [if_neg hno]
      · exact absurd hn (by simp)
      · have hno : ¬(verify = true ∧ SIGNATURE_LENGTH + 2 < data.length) := fun hcon => by
          have hgt := hcon.2
          unfold SIGNATURE_LENGTH at hgt hl
          omega
        rw [if_neg hno]
  · constructor
    · intro he
      cases chas with
      | none =>
        simp only [decode] at he
        by_cases h2 : data.length < 2
        · rw [if_pos h2] at he
          exact absurd he (by simp)
        · rw [if_neg h2] at he
          exact absurd he (by simp)
      | some c =>
        simp only [decode] at he
        by_cases h2 : data.length < 2
        · rw [if_pos h2] at he
          exact absurd he (by simp)
        · rw [if_neg h2] at he
          by_cases hcond : verify = true ∧ SIGNATURE_LENGTH + 2 < data.length
          · rw [if_pos hcond] at he
            by_cases hsig : data.drop (data.length - SIGNATURE_LENGTH) =
                mac5 c (data.take (data.length - SIGNATURE_LENGTH))
            · rw [if_pos hsig] at he
              exact absurd he (by simp)
            · exact ⟨hcond.1, c, rfl, hcond.2, hsig⟩
          · rw [if_neg hcond] at he
            exact absurd he (by simp)
    · rintro ⟨hv, c, rfl, hlen, hsig⟩
      have h2 : ¬(data.length < 2) := by
        have hgt := hlen
        unfold SIGNATURE_LENGTH at hgt
        omega
      simp only [decode]
      rw [if_neg h2, if_pos ⟨hv, hlen⟩, if_neg hsig]

/-- C10 witness for the amended theorem. -/
theorem decode_signature_gating_witness :
    ((2 : Nat) ≤ ([1, 2, 3] : List Nat).length ∧
      ((true = false) ∨ (none : Option Chaskey) = none ∨
        ([1, 2, 3] : List Nat).length ≤ SIGNATURE_LENGTH + 2)) ∧
    decode none [1, 2, 3] true = .ok
      { connId := ([1, 2, 3] : List Nat).getD 0 0 &&& CONN_ID_MASK
        newlyAssigned := ([1, 2, 3] : List Nat).getD 0 0 &&& NEWLY_ASSIGNED_BIT != 0
        isMulti := ([1, 2, 3] : List Nat).getD 0 0 &&& MULTI_BIT != 0
        isFragment := ([1, 2, 3] : List Nat).getD 0 0 &&& FRAGMENT_BIT != 0
        opcode := ([1, 2, 3] : List Nat).getD 1 0
        payload := ([1, 2, 3] : List Nat).drop 2
        signature := none } :=
  ⟨⟨by decide, Or.inr (Or.inl rfl)⟩,
    (decode_signature_gating none [1, 2, 3] true).1 (by decide) (Or.inr (Or.inl rfl))⟩

/-! ## Claim C3 -/

set_option maxRecDepth 1000000 in
/-- FIPS 180-4 test vector: `SHA256("") = e3b0c442…b855`. -/
theorem sha256_empty_vector :
    sha256 [] = [0xe3, 0xb0, 0xc4, 0x42, 0x98, 0xfc, 0x1c, 0x14, 0x9a, 0xfb, 0xf4, 0xc8,
      0x99, 0x6f, 0xb9, 0x24, 0x27, 0xae, 0x41, 0xe4, 0x64, 0x9b, 0x93, 0x4c, 0xa4, 0x95,
      0x99, 0x1b, 0x78, 0x52, 0xb8, 0x55] := by
  decide

set_option maxRecDepth 1000000 in
/-- FIPS 180-4 test vector: `SHA256("abc") = ba7816bf…15ad`. -/
theorem sha256_abc_vector :
    sha256 [0x61, 0x62, 0x63] = [0xba, 0x78, 0x16, 0xbf, 0x8f, 0x01, 0xcf, 0xea, 0x41,
      0x41, 0x40, 0xde, 0x5d, 0xae, 0x22, 0x23, 0xb0, 0x03, 0x61, 0xa3, 0x96, 0x17, 0x7a,
      0x9c, 0xb4, 0x10, 0xff, 0x61, 0xf2, 0x00, 0x15, 0xad] := by
  decide

set_option maxRecDepth 1000000 in
/-- RFC 4231 test case 2: `HMAC-SHA256("Jefe", "what do ya want for nothing?")`. -/
theorem hmacSha256_rfc4231_vector :
    hmacSha256 [0x4a, 0x65, 0x66, 0x65]
        [0x77, 0x68, 0x61, 0x74, 0x20, 0x64, 0x6f, 0x20, 0x79, 0x61, 0x20, 0x77, 0x61,
         0x6e, 0x74, 0x20, 0x66, 0x6f, 0x72, 0x20, 0x6e, 0x6f, 0x74, 0x68, 0x69, 0x6e,
         0x67, 0x3f]
      = [0x5b, 0xdc, 0xc1, 0x46, 0xbf, 0x60, 0x75, 0x4e, 0x6a, 0x04, 0x24, 0x26, 0x08,
         0x95, 0x75, 0xc7, 0x5a, 0x00, 0x3f, 0x08, 0x9d, 0x27, 0x39, 0x83, 0x9d, 0xec,
         0x58, 0xb9, 0x64, 0xec, 0x38, 0x43] := by
  decide

theorem sha256_length (msg : List Nat) : (sha256 msg).length = 32 := by
  simp [sha256, be32ToBytes]

theorem hmacSha256_length (key msg : List Nat) : (hmacSha256 key msg).length = 32 := by
  unfold hmacSha256
  exact sha256_length _

/-- C3: the Full Verify key schedule is exact:
`full_verify_secret = SHA256(shared_secret ‖ sig_bits ‖ button_random(8) ‖ client_random(8) ‖ 0x00)`
(32 bytes); `verifier` and `session_key` are the first 16 bytes of
`HMAC-SHA256(full_verify_secret, "AT")` and `HMAC-SHA256(full_verify_secret, "SK")`;
and the first 20 bytes of `HMAC-SHA256(full_verify_secret, "PK")` split into
`pairing_id` = bytes 0..3 and `pairing_key` = bytes 4..19, for all inputs of
the stated lengths. -/
theorem keySchedule_exact (sharedSecret buttonRandom clientRandom fvs : List Nat)
    (sigBits : Nat) (hs : sharedSecret.length = 32) (hb : buttonRandom.length = 8)
    (hc : clientRandom.length = 8) (hsig : sigBits < 256) (hf : fvs.length = 32) :
    deriveFullVerifySecret sharedSecret sigBits buttonRandom clientRandom
        = sha256 (sharedSecret ++ [sigBits] ++ buttonRandom ++ clientRandom ++ [0x00])
    ∧ (deriveFullVerifySecret sharedSecret sigBits buttonRandom clientRandom).length = 32
    ∧ deriveVerifier fvs = (hmacSha256 fvs [0x41, 0x54]).take 16
    ∧ (deriveVerifier fvs).length = 16
    ∧ deriveSessionKey fvs = (hmacSha256 fvs [0x53, 0x4B]).take 16
    ∧ (deriveSessionKey fvs).length = 16
    ∧ (derivePairingData fvs).1 = ((hmacSha256 fvs [0x50, 0x4B]).take 20).take 4
    ∧ (derivePairingData fvs).2 = ((hmacSha256 fvs [0x50, 0x4B]).take 20).drop 4
    ∧ (derivePairingData fvs).1.length = 4
    ∧ (derivePairingData fvs).2.length = 16
    ∧ (derivePairingData fvs).1 ++ (derivePairingData fvs).2
        = (hmacSha256 fvs [0x50, 0x4B]).take 20 := by
  have hm : (hmacSha256 fvs [0x50, 0x4B]).length = 32 := hmacSha256_length _ _
  have hd : (((hmacSha256 fvs [0x50, 0x4B]).take 20).drop 4).length = 16 := by
    simp [hm]
  refine ⟨rfl, sha256_length _, rfl, ?_, rfl, ?_, ?_, ?_, ?_, ?_, ?_⟩
  · simp [deriveVerifier, hmacSha256_length]
  · simp [deriveSessionKey, hmacSha256_length]
  · simp [derivePairingData, List.take_take]
  · unfold derivePairingData
    simp only
    exact List.take_of_length_le (le_of_eq hd)
  · simp [derivePairingData, hm]
  · unfold derivePairingData
    simp only
    rw [List.take_of_length_le (le_of_eq hd)]
    simp [hm]
  · unfold derivePairingData
    simp only
    rw [List.take_of_length_le (le_of_eq hd)]
    exact List.take_append_drop 4 _

/-- C3 witness. -/
theorem keySchedule_exact_witness :
    ((List.replicate 32 1).length = 32 ∧ (List.replicate 8 2).length = 8 ∧
      (List.replicate 8 3).length = 8 ∧ (7 : Nat) < 256 ∧ (List.replicate 32 4).length = 32) ∧
    deriveFullVerifySecret (List.replicate 32 1) 7 (List.replicate 8 2) (List.replicate 8 3)
        = sha256 (List.replicate 32 1 ++ [7] ++ List.replicate 8 2 ++ List.replicate 8 3 ++ [0x00])
    ∧ (deriveVerifier (List.replicate 32 4)).length = 16
    ∧ (derivePairingData (List.replicate 32 4)).1.length = 4
    ∧ (derivePairingData (List.replicate 32 4)).2.length = 16 := by
  have h := keySchedule_exact (List.replicate 32 1) (List.replicate 8 2) (List.replicate 8 3)
    (List.replicate 32 4) 7 (by decide) (by decide) (by decide) (by decide) (by decide)
  exact ⟨⟨by decide, by decide, by decide, by decide, by decide⟩,
    h.1, h.2.2.2.1, h.2.2.2.2.2.2.2.2.1, h.2.2.2.2.2.2.2.2.2.1⟩

/-- C7 witness. -/
theorem decode_encode_roundtrip_witness :
    ((3 : Nat) < 32 ∧ (0x0E : Nat) < 256) ∧
    decode none (encode none 0x0E [9, 8, 7] 3 true false) false =
      .ok { connId := 3, newlyAssigned := true, isMulti := false,
            isFragment := false, opcode := 0x0E, payload := [9, 8, 7], signature := none } :=
  ⟨⟨by decide, by decide⟩, decode_encode_roundtrip 0x0E [9, 8, 7] 3 true (by decide) (by decide)⟩

/-! ## Claim C1 -/

set_option maxRecDepth 100000 in
/-- C1 counterexample: with the zero session key installed and
`tx_counter = 0`, neither of the two signed requests the session engine can
send matches the claimed framing
`header ‖ opcode ‖ payload ‖ mac_with_dir_and_counter(header‖opcode‖payload, dir=1, counter=tx_counter)`:
the ping request is signed with the plain counter-less `mac5`, and the
`init_button_events` request MACs only `opcode ‖ payload`, without the
header byte. -/
theorem signedFrame_counterexample :
    encodePing (some czero) 0 ≠ claimedSignedFrame czero 0x0E [] 0 0 ∧
    (initButtonEventsPacket czero 0 0).1 ≠
      claimedSignedFrame czero 0x17 initButtonEventsPayload 0 0 := by
  constructor <;> decide

/-- C1 (amended): after a session key is installed, the `init_button_events`
request is framed as `header(conn_id) ‖ opcode ‖ payload ‖
mac_with_dir_and_counter(opcode‖payload, dir=1, counter=tx_counter)` — the
header byte is excluded from the MAC input — and `tx_counter` is incremented
by one; the ping request is framed as `header(conn_id) ‖ opcode` followed by
the plain 5-byte Chaskey MAC `mac5(header‖opcode)` with no direction or
counter and no `tx_counter` change. -/
theorem signedRequest_framing (c : Chaskey) (connId txCounter : Nat) :
    initButtonEventsPacket c connId txCounter =
      (((connId &&& 0x1F) :: INIT_BUTTON_EVENTS :: initButtonEventsPayload) ++
        macWithDirAndCounter c (INIT_BUTTON_EVENTS :: initButtonEventsPayload) 1 txCounter,
       txCounter + 1)
    ∧ encodePing (some c) connId =
        ((connId &&& 0x1F) :: [PING_REQUEST]) ++ mac5 c ((connId &&& 0x1F) :: [PING_REQUEST]) := by
  refine ⟨rfl, ?_⟩
  unfold encodePing encode PING_REQUEST CONN_ID_MASK NEWLY_ASSIGNED_BIT
  simp

/-! ## Claim C8 -/

/-- C8: for every valid 16-byte key, `encrypt_block` is a bijection on the
16-byte blocks: it is injective on valid blocks, and every valid 16-byte
value is attained by some valid plaintext. -/
theorem encryptBlock_bijective (key : List Nat) (c : Chaskey)
    (hk : chaskeyOfKey key = some c) (hv : ∀ b ∈ key, b < 256) :
    (∀ p q, ValidBlock p → ValidBlock q → encryptBlock c p = encryptBlock c q → p = q)
    ∧ (∀ ct, ValidBlock ct → ∃ p, ValidBlock p ∧ encryptBlock c p = some ct) := by
  have hc := chaskeyOfKey_bounded hk hv
  constructor
  · intro p q hp hq he
    obtain ⟨ctp, hep⟩ := encryptBlock_isSome (c := c) hp.1
    have h1 := decrypt_encrypt hc hp hep
    have h2 := decrypt_encrypt hc hq (by rw [← he]; exact hep)
    rw [h1, Option.some_inj] at h2
    exact h2
  · intro ct hct
    obtain ⟨p, hdp⟩ := decryptBlock_isSome (c := c) hct.1
    exact ⟨p, decryptBlock_valid hdp, encrypt_decrypt hc hct hdp⟩

/-- C8 witness: the bijection property instantiated at the zero key. -/
theorem encryptBlock_bijective_witness :
    (chaskeyOfKey (List.replicate 16 0) = some czero ∧
      ∀ b ∈ List.replicate 16 0, b < 256) ∧
    ((∀ p q, ValidBlock p → ValidBlock q →
        encryptBlock czero p = encryptBlock czero q → p = q)
      ∧ (∀ ct, ValidBlock ct → ∃ p, ValidBlock p ∧ encryptBlock czero p = some ct)) :=
  ⟨⟨by decide, by decide⟩,
    encryptBlock_bijective (List.replicate 16 0) czero (by decide) (by decide)⟩

/-! ## Claim C9 -/

/-- The MAC output is always exactly 5 bytes, each a valid byte. -/
theorem macWDC_output_shape (c : Chaskey) (msg : List Nat) (dir ctr : Nat) :
    (macWithDirAndCounter c msg dir ctr).length = 5 ∧
      ∀ b ∈ macWithDirAndCounter c msg dir ctr, b < 256 := by
  unfold macWithDirAndCounter
  constructor
  · simp [pack32]
  · intro b hb
    simp only [pack32, List.cons_append, List.nil_append, List.mem_cons,
      List.not_mem_nil, or_false] at hb
    rcases hb with h | h | h | h | h <;> (subst h; exact and255_lt _)

theorem encode5_lt {l : List Nat} (h : ∀ b ∈ l, b < 256) : encode5 l < 2 ^ 40 := by
  have h0 := getD_lt_256 h 0
  have h1 := getD_lt_256 h 1
  have h2 := getD_lt_256 h 2
  have h3 := getD_lt_256 h 3
  have h4 := getD_lt_256 h 4
  unfold encode5
  have e : (2 : Nat) ^ 40 = 1099511627776 := by norm_num
  rw [e]
  omega

theorem encode5_inj {l m : List Nat} (hl5 : l.length = 5) (hm5 : m.length = 5)
    (hlb : ∀ b ∈ l, b < 256) (hmb : ∀ b ∈ m, b < 256)
    (he : encode5 l = encode5 m) : l = m := by
  have gl0 := getD_lt_256 hlb 0
  have gl1 := getD_lt_256 hlb 1
  have gl2 := getD_lt_256 hlb 2
  have gl3 := getD_lt_256 hlb 3
  have gl4 := getD_lt_256 hlb 4
  have gm0 := getD_lt_256 hmb 0
  have gm1 := getD_lt_256 hmb 1
  have gm2 := getD_lt_256 hmb 2
  have gm3 := getD_lt_256 hmb 3
  have gm4 := getD_lt_256 hmb 4
  unfold encode5 at he
  have e : l.getD 0 0 = m.getD 0 0 ∧ l.getD 1 0 = m.getD 1 0 ∧ l.getD 2 0 = m.getD 2 0 ∧
      l.getD 3 0 = m.getD 3 0 ∧ l.getD 4 0 = m.getD 4 0 := by omega
  obtain ⟨e0, e1, e2, e3, e4⟩ := e
  apply List.ext_getElem (by omega)
  intro i hi1 hi2
  rw [← List.getD_eq_getElem l 0 hi1, ← List.getD_eq_getElem m 0 hi2]
  have hi5 : i < 5 := by omega
  interval_cases i <;> assumption

/-- C9 counterexample: the 5-byte MAC cannot distinguish all 64-bit
counters — by the pigeonhole principle two distinct counters (with the zero
key, empty message and `dir = 1`) produce the same MAC, so "changing `ctr`
changes the output" is false. -/
theorem macWDC_counter_collision :
    ¬ (∀ c1 c2 : Fin (2 ^ 64), c1 ≠ c2 →
        macWithDirAndCounter czero [] 1 c1.val ≠ macWithDirAndCounter czero [] 1 c2.val) := by
  intro hinj
  have hf : ∀ x : Fin (2 ^ 64), encode5 (macWithDirAndCounter czero [] 1 x.val) < 2 ^ 40 :=
    fun x => encode5_lt (macWDC_output_shape czero [] 1 x.val).2
  obtain ⟨c1, c2, hne, heq⟩ := Fintype.exists_ne_map_eq_of_card_lt
    (fun x : Fin (2 ^ 64) =>
      (⟨encode5 (macWithDirAndCounter czero [] 1 x.val), hf x⟩ : Fin (2 ^ 40)))
    (by simp only [Fintype.card_fin]; norm_num)
  apply hinj c1 c2 hne
  have hval := congrArg Fin.val heq
  exact encode5_inj (macWDC_output_shape czero [] 1 c1.val).1
    (macWDC_output_shape czero [] 1 c2.val).1
    (macWDC_output_shape czero [] 1 c1.val).2
    (macWDC_output_shape czero [] 1 c2.val).2 hval

/-- C9 (amended): `mac_with_dir_and_counter` is a deterministic function of
`(k, dir, ctr, m)` whose output is always exactly 5 bytes (each `< 256`);
distinct inputs need not give distinct outputs, since the output space has
only `2^40` values. -/
theorem macWDC_deterministic_output (c : Chaskey) (msg : List Nat) (dir ctr : Nat) :
    (macWithDirAndCounter c msg dir ctr).length = 5 ∧
      ∀ b ∈ macWithDirAndCounter c msg dir ctr, b < 256 :=
  macWDC_output_shape c msg dir ctr

end FlicBLE
